import Mathlib

/-!
Shallow embedding of `cmd/kubeadm/app/phases/upgrade/postupgrade.go`
(post-upgrade reconciliation orchestrator) and proofs about it.

External collaborators (uploadconfig, kubeletphase, RBAC helpers, addons,
selfhosting converter, the cluster client) are modelled as oracles carried
by an `Env` record: each collaborator call's outcome is a field of the
environment.  The local filesystem touched by the certificate-backup code
is modelled explicitly (`Fs`), with `os.Rename` succeeding exactly when
the source file exists and `os.Mkdir` failing exactly when the directory
already exists.
-/

namespace PostUpgrade

/-- A Go `error` value: its rendered message plus whether
`apierrors.IsNotFound` holds for it. -/
structure BaseErr where
  msg : String
  notFound : Bool
deriving Repr, DecidableEq

/-- `fmt.Errorf("<pre>%v", err)`: wrapping loses the typed NotFound
information, keeping only text. -/
def wrapErr (pre : String) (e : BaseErr) : BaseErr :=
  ⟨pre ++ e.msg, false⟩

/-- Rendered description of an aggregate of errors.
Modelled from the spec: the aggregate is "a single error describing all
accumulated failures in order" (the `errors.NewAggregate` implementation is
in k8s.io/apimachinery, which is not under src/). -/
def aggregateDescription : List BaseErr → String
  | [] => ""
  | [e] => e.msg
  | e :: rest => e.msg ++ ", " ++ aggregateDescription rest

/-- Modelled from the spec: `errors.NewAggregate` (k8s.io/apimachinery, not
under src/) "returns nil if the aggregate is empty, otherwise a single
error describing all accumulated failures in order". -/
def NewAggregate (errs : List BaseErr) : Option BaseErr :=
  if errs.isEmpty then none
  else some ⟨aggregateDescription errs, false⟩

/-- `s` contains each string of the list as a substring, in order:
each element occurs, and the next one occurs after the previous one. -/
def strContainsInOrder (s : String) : List String → Prop
  | [] => True
  | m :: ms => ∃ t u, s = t ++ m ++ u ∧ strContainsInOrder u ms

/-- Prepending text preserves in-order containment. -/
theorem strContainsInOrder_prepend (t s : String) (ms : List String)
    (h : strContainsInOrder s ms) : strContainsInOrder (t ++ s) ms := by
  cases ms with
  | nil => trivial
  | cons m rest =>
    obtain ⟨p, u, hs, hrest⟩ := h
    refine ⟨t ++ p, u, ?_, hrest⟩
    rw [hs, String.append_assoc, String.append_assoc, String.append_assoc]

/-- The aggregate description mentions every accumulated failure, in order. -/
theorem aggregateDescription_mentions (l : List BaseErr) :
    strContainsInOrder (aggregateDescription l) (l.map BaseErr.msg) := by
  induction l with
  | nil => trivial
  | cons e rest ih =>
    cases rest with
    | nil =>
      refine ⟨"", "", ?_, trivial⟩
      rw [String.empty_append, String.append_empty]
      rfl
    | cons e2 rest2 =>
      refine ⟨"", ", " ++ aggregateDescription (e2 :: rest2), ?_, ?_⟩
      · rw [String.empty_append]
        rw [show aggregateDescription (e :: e2 :: rest2)
              = e.msg ++ ", " ++ aggregateDescription (e2 :: rest2) from rfl]
        rw [String.append_assoc]
      · exact strContainsInOrder_prepend _ _ _ ih

/-! ### Constants

The values below come from the repository's `kubeadmconstants` and
`kubeadmapiv1alpha2` packages, which are referenced by postupgrade.go but
are not under src/.  Modelled from the spec: the spec speaks of "two named
deployments", "fixed-named cert/key files", "a fixed well-known path" and
a sibling "expired/" sub-directory; the concrete strings are the
repository's values. -/

def kubeDNS : String := "kube-dns"

def coreDNS : String := "coredns"

def apiServerCertName : String := "apiserver.crt"

def apiServerKeyName : String := "apiserver.key"

def kubeletRunDirectory : String := "/var/lib/kubelet"

def defaultCertificatesDir : String := "/etc/kubernetes/pki"

/-- `filepath.Join` for the two-component paths used here. -/
def filepathJoin (a b : String) : String := a ++ "/" ++ b

/-- `var expiry = 180 * 24 * time.Hour` — a `time.Duration` is a count of
nanoseconds; one hour is 3600e9 nanoseconds. -/
def hourNs : Int := 3600 * 1000000000

def minuteNs : Int := 60 * 1000000000

def dayNs : Int := 24 * hourNs

def expiry : Int := 180 * 24 * hourNs

/-! ### Filesystem model

`os.Rename` succeeds exactly when the source exists, moving its content to
the destination (overwriting any previous destination content);
`os.Mkdir` fails exactly when the directory already exists. -/

/-- Local filesystem state: file contents by path, plus the set of
directories. -/
structure Fs where
  files : String → Option String
  dirs : String → Bool

def renameErrMsg (src dst : String) : String :=
  "rename " ++ src ++ " " ++ dst ++ ": no such file or directory"

/-- `os.Rename(src, dst)` on the filesystem model. -/
def osRename (src dst : String) (fs : Fs) : Except BaseErr Fs :=
  match fs.files src with
  | none => .error ⟨renameErrMsg src dst, false⟩
  | some c =>
    .ok { fs with files := fun p => if p = src then none else if p = dst then some c else fs.files p }

/-- `os.Mkdir(p, 0766)` on the filesystem model. -/
def osMkdir (p : String) (fs : Fs) : Except BaseErr Fs :=
  if fs.dirs p then .error ⟨"mkdir " ++ p ++ ": file exists", false⟩
  else .ok { fs with dirs := fun q => if q = p then true else fs.dirs q }

/-! ### Cluster-facing data -/

/-- The slice of an `appsv1.Deployment` the code looks at. -/
structure Deployment where
  readyReplicas : Nat
deriving Repr, DecidableEq

/-- The slice of an `x509.Certificate` the code looks at: `NotBefore`, as
nanoseconds since the epoch. -/
structure Cert where
  notBefore : Int
deriving Repr, DecidableEq

/-- The two feature gates postupgrade.go consults
(`features.Enabled(cfg.FeatureGates, features.CoreDNS)` and
`features.Enabled(cfg.FeatureGates, features.SelfHosting)`). -/
structure MasterConfiguration where
  coreDNSEnabled : Bool
  selfHostingEnabled : Bool
deriving Repr, DecidableEq

/-- The waiter handed to the self-hosting converter: `dryrunutil.NewWaiter()`
or `apiclient.NewKubeWaiter(client, 30*time.Minute, os.Stdout)`. -/
inductive Waiter where
  | dryrun
  | kube (timeoutNs : Int)
deriving Repr, DecidableEq

/-- Observable actions of one run: collaborator calls, filesystem
operations and cluster reads/deletes, in execution order. -/
inductive Action where
  | uploadConfiguration
  | createConfigMap
  | createTempDir
  | downloadConfig (dir : String)
  | annotateCRISocket
  | allowBootstrapTokensToPostCSRs
  | autoApproveNodeBootstrapTokens
  | autoApproveNodeCertificateRotation
  | createSelfHostedControlPlane (w : Waiter)
  | createClusterInfoRBACRules
  | readCertFile (path : String)
  | mkdirFs (path : String)
  | renameFs (src dst : String)
  | createAPIServerCertAndKeyFiles
  | ensureDNSAddon
  | dnsGetDeployment (name : String)
  | dnsDeleteDeployment (name : String)
  | ensureProxyAddon
deriving Repr, DecidableEq

/-- Outcomes of every external collaborator call the orchestrator makes.
DNS reads/deletes are indexed by the retry attempt number, since each
attempt observes the cluster afresh. -/
structure Env where
  uploadConfiguration : Option BaseErr
  createConfigMap : Option BaseErr
  tempDir : Except BaseErr String
  downloadConfig : Option BaseErr
  annotateCRISocket : Option BaseErr
  allowBootstrapTokensToPostCSRs : Option BaseErr
  autoApproveNodeBootstrapTokens : Option BaseErr
  autoApproveNodeCertificateRotation : Option BaseErr
  isControlPlaneSelfHosted : Bool
  createSelfHostedControlPlane : Waiter → Option BaseErr
  createClusterInfoRBACRules : Option BaseErr
  parseCerts : String → Except BaseErr (List Cert)
  now : Int
  createAPIServerCertAndKeyFiles : Option BaseErr
  ensureDNSAddon : Option BaseErr
  dnsGet : Nat → String → Except BaseErr Deployment
  dnsDelete : Nat → String → Option BaseErr
  ensureProxyAddon : Option BaseErr

/-! ### moveFiles / rollbackFiles / backupAPIServerCertAndKey -/

/-- Rendering of a Go map of file pairs by `fmt` (`%v`); the exact layout is
immaterial to the claims. -/
def renderPairs : List (String × String) → String
  | [] => ""
  | [(a, b)] => a ++ ":" ++ b
  | (a, b) :: rest => a ++ ":" ++ b ++ " " ++ renderPairs rest

def mkRollbackErrMsg (files : List (String × String)) (errs : List BaseErr) : String :=
  "couldn't move these files: map[" ++ renderPairs files ++ "]. Got errors: "
    ++ aggregateDescription errs

/-- The rename loop of `rollbackFiles`: renames each `(src, dst)` pair,
collecting the errors of the renames that fail. -/
def rollbackRenames : List (String × String) → Fs → List BaseErr × Fs × List Action
  | [], fs => ([], fs, [])
  | (src, dst) :: rest, fs =>
    match osRename src dst fs with
    | .error e =>
      let r := rollbackRenames rest fs
      (e :: r.1, r.2.1, Action.renameFs src dst :: r.2.2)
    | .ok fs1 =>
      let r := rollbackRenames rest fs1
      (r.1, r.2.1, Action.renameFs src dst :: r.2.2)

/-- `rollbackFiles`: moves the files back to the original directory and
returns one error folding the original failure with any reversal failures
(`fmt.Errorf("couldn't move these files: %v. Got errors: %v", files,
errors.NewAggregate(errs))` with `errs = originalErr :: reversal errors`). -/
def rollbackFiles (files : List (String × String)) (originalErr : BaseErr) (fs : Fs) :
    BaseErr × Fs × List Action :=
  let r := rollbackRenames files fs
  (⟨mkRollbackErrMsg files (originalErr :: r.1), false⟩, r.2.1, r.2.2)

/-- The loop of `moveFiles` with the `filesToRecover` accumulator:
`filesToRecover[to] = from` for every completed move, so `recovered` holds
`(dst, src)` pairs in completion order. -/
def moveFilesGo : List (String × String) → List (String × String) → Fs →
    Option BaseErr × Fs × List Action
  | [], _, fs => (none, fs, [])
  | (src, dst) :: rest, recovered, fs =>
    match osRename src dst fs with
    | .error e =>
      let r := rollbackFiles recovered e fs
      (some r.1, r.2.1, Action.renameFs src dst :: r.2.2)
    | .ok fs1 =>
      let r := moveFilesGo rest (recovered ++ [(dst, src)]) fs1
      (r.1, r.2.1, Action.renameFs src dst :: r.2.2)

/-- `moveFiles` moves files from one directory to another; the map is
modelled as an association list in Go-iteration order. -/
def moveFiles (files : List (String × String)) (fs : Fs) :
    Option BaseErr × Fs × List Action :=
  moveFilesGo files [] fs

/-- `backupAPIServerCertAndKey` backups the old cert and key of
kube-apiserver to the `expired` sub-directory. -/
def backupAPIServerCertAndKey (certAndKeyDir : String) (fs : Fs) :
    Option BaseErr × Fs × List Action :=
  let subDir := filepathJoin certAndKeyDir "expired"
  match osMkdir subDir fs with
  | .error e =>
    (some ⟨"failed to created backup directory " ++ subDir ++ ": " ++ e.msg, false⟩,
      fs, [Action.mkdirFs subDir])
  | .ok fs1 =>
    let filesToMove :=
      [(filepathJoin certAndKeyDir apiServerCertName, filepathJoin subDir apiServerCertName),
       (filepathJoin certAndKeyDir apiServerKeyName, filepathJoin subDir apiServerKeyName)]
    let r := moveFiles filesToMove fs1
    (r.1, r.2.1, Action.mkdirFs subDir :: r.2.2)

/-- `shouldBackupAPIServerCertAndKey` checks whether more than `expiry` has
elapsed since the first certificate's `NotBefore`.  `certutil.CertsFromFile`
(read + PEM parse, external to src/) is modelled as a read from the
filesystem model followed by the `parseCerts` oracle. -/
def shouldBackupAPIServerCertAndKey (parseCerts : String → Except BaseErr (List Cert))
    (now : Int) (fs : Fs) (certAndKeyDir : String) : Except BaseErr Bool :=
  let apiServerCert := filepathJoin certAndKeyDir apiServerCertName
  let loaded : Except BaseErr (List Cert) :=
    match fs.files apiServerCert with
    | none => .error ⟨"open " ++ apiServerCert ++ ": no such file or directory", false⟩
    | some content => parseCerts content
  match loaded with
  | .error e =>
    .error ⟨"couldn't load the certificate file " ++ apiServerCert ++ ": " ++ e.msg, false⟩
  | .ok certs =>
    match certs with
    | [] => .error ⟨"no certificate data found", false⟩
    | c :: _ => .ok (decide (now - c.notBefore > expiry))

/-! ### DNS deployment swap -/

/-- The installed deployment name picked by
`removeOldDNSDeploymentIfAnotherDNSIsUsed`: `KubeDNS` by default, `CoreDNS`
when the CoreDNS feature gate is enabled. -/
def dnsInstalledName (cfg : MasterConfiguration) : String :=
  if cfg.coreDNSEnabled then coreDNS else kubeDNS

/-- The stale deployment name to delete: the other one of the two. -/
def dnsStaleName (cfg : MasterConfiguration) : String :=
  if cfg.coreDNSEnabled then kubeDNS else coreDNS

def dnsNotReadyErr : BaseErr := ⟨"the DNS deployment isn't ready yet", false⟩

/-- One attempt of the closure passed to `apiclient.TryRunCommand` inside
`removeOldDNSDeploymentIfAnotherDNSIsUsed`: fetch the installed deployment,
require a non-zero ready-replica count, then delete the stale deployment in
the foreground, tolerating NotFound. -/
def removeOldDNSDeploymentAttempt (cfg : MasterConfiguration)
    (get : String → Except BaseErr Deployment) (del : String → Option BaseErr) :
    Option BaseErr × List Action :=
  let installedDeploymentName := dnsInstalledName cfg
  let deploymentToDelete := dnsStaleName cfg
  match get installedDeploymentName with
  | .error e => (some e, [Action.dnsGetDeployment installedDeploymentName])
  | .ok dnsDeployment =>
    if dnsDeployment.readyReplicas = 0 then
      (some dnsNotReadyErr, [Action.dnsGetDeployment installedDeploymentName])
    else
      match del deploymentToDelete with
      | some e =>
        if e.notFound then
          (none, [Action.dnsGetDeployment installedDeploymentName,
                  Action.dnsDeleteDeployment deploymentToDelete])
        else
          (some e, [Action.dnsGetDeployment installedDeploymentName,
                    Action.dnsDeleteDeployment deploymentToDelete])
      | none =>
        (none, [Action.dnsGetDeployment installedDeploymentName,
                Action.dnsDeleteDeployment deploymentToDelete])

/-- Modelled from the spec: `apiclient.TryRunCommand` (RetryingCommand, not
under src/) "invokes op up to maxAttempts times with a fixed inter-attempt
pause; returns success on the first success, or the last observed error once
attempts are exhausted".  The operation is indexed by the attempt number and
also yields its trace of actions; traces of all attempts made are
concatenated. -/
def tryRunCommandFrom (op : Nat → Option BaseErr × List Action) :
    Nat → Nat → Option BaseErr × List Action
  | _, 0 => (none, [])
  | i, fuel + 1 =>
    match op i with
    | (none, tr) => (none, tr)
    | (some e, tr) =>
      if fuel = 0 then (some e, tr)
      else
        let r := tryRunCommandFrom op (i + 1) fuel
        (r.1, tr ++ r.2)

def tryRunCommand (op : Nat → Option BaseErr × List Action) (failureThreshold : Nat) :
    Option BaseErr × List Action :=
  tryRunCommandFrom op 0 failureThreshold

/-- `removeOldDNSDeploymentIfAnotherDNSIsUsed`: the attempt wrapped in
`TryRunCommand(..., 10)`. -/
def removeOldDNSDeploymentIfAnotherDNSIsUsed (cfg : MasterConfiguration) (env : Env) :
    Option BaseErr × List Action :=
  tryRunCommand (fun i => removeOldDNSDeploymentAttempt cfg (env.dnsGet i) (env.dnsDelete i)) 10

/-! ### Self-hosting -/

/-- `getWaiter` gets the right waiter implementation for the right
occasion. -/
def getWaiter (dryRun : Bool) : Waiter :=
  if dryRun then Waiter.dryrun else Waiter.kube (30 * minuteNs)

/-- `upgradeToSelfHosting`: converts the control plane when the SelfHosting
feature gate is enabled and the control plane is not already self-hosted. -/
def upgradeToSelfHosting (cfg : MasterConfiguration) (selfHosted : Bool)
    (convert : Waiter → Option BaseErr) (dryRun : Bool) : Option BaseErr × List Action :=
  if cfg.selfHostingEnabled && !selfHosted then
    match convert (getWaiter dryRun) with
    | some e =>
      (some (wrapErr "error creating self hosted control plane: " e),
        [Action.createSelfHostedControlPlane (getWaiter dryRun)])
    | none => (none, [Action.createSelfHostedControlPlane (getWaiter dryRun)])
  else (none, [])

/-- Modelled from the spec: a successful run of the external converter
leaves the control plane self-hosted, as observed afterwards by the
`IsControlPlaneSelfHosted` idempotency check ("idempotency via the
self-hosted state check"). -/
def selfHostedStateAfter (selfHosted : Bool) (r : Option BaseErr × List Action) : Bool :=
  selfHosted || (!r.2.isEmpty && r.1.isNone)

/-- Number of converter invocations recorded in a trace. -/
def convertInvocations (tr : List Action) : Nat :=
  (tr.filter (fun a => match a with
    | Action.createSelfHostedControlPlane _ => true
    | _ => false)).length

/-! ### The orchestrator: PerformPostUpgradeTasks -/

def configMapErrPre : String := "error creating kubelet configuration ConfigMap: "

def downloadErrPre : String := "error downloading kubelet configuration from the ConfigMap: "

def criSocketErrPre : String := "error uploading crisocket: "

def determineWarn (e : BaseErr) : String :=
  "[postupgrade] WARNING: failed to determine to backup kube-apiserver cert and key: " ++ e.msg

def backupWarn (e : BaseErr) : String :=
  "[postupgrade] WARNING: failed to backup kube-apiserver cert and key: " ++ e.msg

/-- Error-accumulator, warning stream, action trace and filesystem carried
through the run. -/
structure StepState where
  errs : List BaseErr
  warnings : List String
  trace : List Action
  fs : Fs

def optErrList (w : BaseErr → BaseErr) : Option BaseErr → List BaseErr
  | none => []
  | some e => [w e]

/-- One `if err := f(); err != nil { errs = append(errs, wrap(err)) }` step. -/
def runStep (s : StepState) (a : Action) (r : Option BaseErr) (w : BaseErr → BaseErr) :
    StepState :=
  { s with trace := s.trace ++ [a], errs := s.errs ++ optErrList w r }

/-- `getKubeletDir` gets the kubelet directory based on whether the user is
dry-running this command or not (`ioutil.TempDir` for a dry run, the fixed
run directory otherwise). -/
def getKubeletDir (env : Env) (dryRun : Bool) : Except BaseErr String :=
  if dryRun then env.tempDir else .ok kubeletRunDirectory

def fsAddDir (dir : String) (fs : Fs) : Fs :=
  { fs with dirs := fun q => if q = dir then true else fs.dirs q }

/-- Steps (3)-(4): resolve the kubelet directory, then download the
version-specific kubelet configuration into it, tolerating NotFound when
dry-running; a directory-resolution failure is appended and the download is
skipped. -/
def kubeletConfigStep (env : Env) (dryRun : Bool) (s : StepState) : StepState :=
  let s := if dryRun then { s with trace := s.trace ++ [Action.createTempDir] } else s
  match getKubeletDir env dryRun with
  | .ok kubeletDir =>
    let s := if dryRun then { s with fs := fsAddDir kubeletDir s.fs } else s
    match env.downloadConfig with
    | none => { s with trace := s.trace ++ [Action.downloadConfig kubeletDir] }
    | some e =>
      if e.notFound && dryRun then
        { s with trace := s.trace ++ [Action.downloadConfig kubeletDir] }
      else
        { s with trace := s.trace ++ [Action.downloadConfig kubeletDir],
                 errs := s.errs ++ [wrapErr downloadErrPre e] }
  | .error e => { s with errs := s.errs ++ [e] }

/-- Step (9): determine whether to back up the API-server cert/key, back it
up and re-create it; determination and backup failures are only warnings. -/
def certBackupStep (env : Env) (s : StepState) : StepState :=
  let certAndKeyDir := defaultCertificatesDir
  let s0 := { s with trace :=
    s.trace ++ [Action.readCertFile (filepathJoin certAndKeyDir apiServerCertName)] }
  match shouldBackupAPIServerCertAndKey env.parseCerts env.now s.fs certAndKeyDir with
  | .error e => { s0 with warnings := s0.warnings ++ [determineWarn e] }
  | .ok false => s0
  | .ok true =>
    let b := backupAPIServerCertAndKey certAndKeyDir s0.fs
    let s1 := { s0 with
      fs := b.2.1,
      trace := s0.trace ++ b.2.2,
      warnings := s0.warnings ++ (match b.1 with | some e => [backupWarn e] | none => []) }
    runStep s1 Action.createAPIServerCertAndKeyFiles env.createAPIServerCertAndKeyFiles id

/-- One run's observable outcome. -/
structure RunResult where
  errs : List BaseErr
  warnings : List String
  trace : List Action
  fs : Fs
  result : Option BaseErr

/-- `PerformPostUpgradeTasks`: the full fixed-order sequence, aggregating
errors and returning `errors.NewAggregate(errs)`. -/
def performPostUpgradeTasks (cfg : MasterConfiguration) (env : Env) (dryRun : Bool)
    (fs0 : Fs) : RunResult :=
  let s : StepState := ⟨[], [], [], fs0⟩
  let s := runStep s Action.uploadConfiguration env.uploadConfiguration id
  let s := runStep s Action.createConfigMap env.createConfigMap (wrapErr configMapErrPre)
  let s := kubeletConfigStep env dryRun s
  let s := runStep s Action.annotateCRISocket env.annotateCRISocket (wrapErr criSocketErrPre)
  let s := runStep s Action.allowBootstrapTokensToPostCSRs env.allowBootstrapTokensToPostCSRs id
  let s := runStep s Action.autoApproveNodeBootstrapTokens env.autoApproveNodeBootstrapTokens id
  let s := runStep s Action.autoApproveNodeCertificateRotation
    env.autoApproveNodeCertificateRotation id
  let sh := upgradeToSelfHosting cfg env.isControlPlaneSelfHosted
    env.createSelfHostedControlPlane dryRun
  let s := { s with trace := s.trace ++ sh.2, errs := s.errs ++ optErrList id sh.1 }
  let s := runStep s Action.createClusterInfoRBACRules env.createClusterInfoRBACRules id
  let s := certBackupStep env s
  let s := runStep s Action.ensureDNSAddon env.ensureDNSAddon id
  let s :=
    if dryRun then s
    else
      let d := removeOldDNSDeploymentIfAnotherDNSIsUsed cfg env
      { s with trace := s.trace ++ d.2, errs := s.errs ++ optErrList id d.1 }
  let s := runStep s Action.ensureProxyAddon env.ensureProxyAddon id
  ⟨s.errs, s.warnings, s.trace, s.fs, NewAggregate s.errs⟩

/-! ### Characterization of one run, step by step -/

def kubeletStepErrs (env : Env) (dryRun : Bool) : List BaseErr :=
  match getKubeletDir env dryRun with
  | .error e => [e]
  | .ok _ =>
    match env.downloadConfig with
    | none => []
    | some e => if e.notFound && dryRun then [] else [wrapErr downloadErrPre e]

def kubeletStepTrace (env : Env) (dryRun : Bool) : List Action :=
  (if dryRun then [Action.createTempDir] else []) ++
    (match getKubeletDir env dryRun with
     | .error _ => []
     | .ok d => [Action.downloadConfig d])

def kubeletFsAfter (env : Env) (dryRun : Bool) (fs : Fs) : Fs :=
  if dryRun then
    match env.tempDir with
    | .ok d => fsAddDir d fs
    | .error _ => fs
  else fs

theorem kubeletConfigStep_eq (env : Env) (dryRun : Bool) (s : StepState) :
    kubeletConfigStep env dryRun s =
      { s with trace := s.trace ++ kubeletStepTrace env dryRun,
               errs := s.errs ++ kubeletStepErrs env dryRun,
               fs := kubeletFsAfter env dryRun s.fs } := by
  cases dryRun with
  | false =>
    cases h : env.downloadConfig with
    | none =>
      simp [kubeletConfigStep, kubeletStepErrs, kubeletStepTrace, kubeletFsAfter,
        getKubeletDir, h]
    | some e =>
      simp [kubeletConfigStep, kubeletStepErrs, kubeletStepTrace, kubeletFsAfter,
        getKubeletDir, h]
  | true =>
    cases ht : env.tempDir with
    | error e =>
      simp [kubeletConfigStep, kubeletStepErrs, kubeletStepTrace, kubeletFsAfter,
        getKubeletDir, ht]
    | ok d =>
      cases h : env.downloadConfig with
      | none =>
        simp [kubeletConfigStep, kubeletStepErrs, kubeletStepTrace, kubeletFsAfter,
          getKubeletDir, ht, h]
      | some e =>
        cases hn : e.notFound with
        | false =>
          simp [kubeletConfigStep, kubeletStepErrs, kubeletStepTrace, kubeletFsAfter,
            getKubeletDir, ht, h, hn]
        | true =>
          simp [kubeletConfigStep, kubeletStepErrs, kubeletStepTrace, kubeletFsAfter,
            getKubeletDir, ht, h, hn]

def certOutcome (env : Env) (fs : Fs) : Except BaseErr Bool :=
  shouldBackupAPIServerCertAndKey env.parseCerts env.now fs defaultCertificatesDir

def certBackupErrs (env : Env) (fs : Fs) : List BaseErr :=
  match certOutcome env fs with
  | .error _ => []
  | .ok false => []
  | .ok true => optErrList id env.createAPIServerCertAndKeyFiles

def certBackupWarnings (env : Env) (fs : Fs) : List String :=
  match certOutcome env fs with
  | .error e => [determineWarn e]
  | .ok false => []
  | .ok true =>
    match (backupAPIServerCertAndKey defaultCertificatesDir fs).1 with
    | some e => [backupWarn e]
    | none => []

def certBackupFsAfter (env : Env) (fs : Fs) : Fs :=
  match certOutcome env fs with
  | .ok true => (backupAPIServerCertAndKey defaultCertificatesDir fs).2.1
  | _ => fs

def certBackupTrace (env : Env) (fs : Fs) : List Action :=
  [Action.readCertFile (filepathJoin defaultCertificatesDir apiServerCertName)] ++
    (match certOutcome env fs with
     | .ok true =>
       (backupAPIServerCertAndKey defaultCertificatesDir fs).2.2 ++
         [Action.createAPIServerCertAndKeyFiles]
     | _ => [])

theorem certBackupStep_eq (env : Env) (s : StepState) :
    certBackupStep env s =
      { s with trace := s.trace ++ certBackupTrace env s.fs,
               errs := s.errs ++ certBackupErrs env s.fs,
               warnings := s.warnings ++ certBackupWarnings env s.fs,
               fs := certBackupFsAfter env s.fs } := by
  cases h : certOutcome env s.fs with
  | error e =>
    simp [certBackupStep, certBackupErrs, certBackupWarnings, certBackupFsAfter,
      certBackupTrace, certOutcome] at h ⊢
    simp [h]
  | ok b =>
    cases b with
    | false =>
      simp [certBackupStep, certBackupErrs, certBackupWarnings, certBackupFsAfter,
        certBackupTrace, certOutcome] at h ⊢
      simp [h]
    | true =>
      simp [certBackupStep, certBackupErrs, certBackupWarnings, certBackupFsAfter,
        certBackupTrace, certOutcome] at h ⊢
      simp [h, runStep, List.append_assoc]

/-- The self-hosting step's outcome inside one run. -/
def selfHostingOutcome (cfg : MasterConfiguration) (env : Env) (dryRun : Bool) :
    Option BaseErr × List Action :=
  upgradeToSelfHosting cfg env.isControlPlaneSelfHosted env.createSelfHostedControlPlane dryRun

/-- The error aggregate accumulated by one full run, step contribution by
step contribution, in execution order. -/
def expectedErrs (cfg : MasterConfiguration) (env : Env) (dryRun : Bool) (fs0 : Fs) :
    List BaseErr :=
  optErrList id env.uploadConfiguration
    ++ optErrList (wrapErr configMapErrPre) env.createConfigMap
    ++ kubeletStepErrs env dryRun
    ++ optErrList (wrapErr criSocketErrPre) env.annotateCRISocket
    ++ optErrList id env.allowBootstrapTokensToPostCSRs
    ++ optErrList id env.autoApproveNodeBootstrapTokens
    ++ optErrList id env.autoApproveNodeCertificateRotation
    ++ optErrList id (selfHostingOutcome cfg env dryRun).1
    ++ optErrList id env.createClusterInfoRBACRules
    ++ certBackupErrs env (kubeletFsAfter env dryRun fs0)
    ++ optErrList id env.ensureDNSAddon
    ++ (if dryRun then []
        else optErrList id (removeOldDNSDeploymentIfAnotherDNSIsUsed cfg env).1)
    ++ optErrList id env.ensureProxyAddon

def expectedTrace (cfg : MasterConfiguration) (env : Env) (dryRun : Bool) (fs0 : Fs) :
    List Action :=
  [Action.uploadConfiguration]
    ++ [Action.createConfigMap]
    ++ kubeletStepTrace env dryRun
    ++ [Action.annotateCRISocket]
    ++ [Action.allowBootstrapTokensToPostCSRs]
    ++ [Action.autoApproveNodeBootstrapTokens]
    ++ [Action.autoApproveNodeCertificateRotation]
    ++ (selfHostingOutcome cfg env dryRun).2
    ++ [Action.createClusterInfoRBACRules]
    ++ certBackupTrace env (kubeletFsAfter env dryRun fs0)
    ++ [Action.ensureDNSAddon]
    ++ (if dryRun then []
        else (removeOldDNSDeploymentIfAnotherDNSIsUsed cfg env).2)
    ++ [Action.ensureProxyAddon]

def expectedWarnings (env : Env) (dryRun : Bool) (fs0 : Fs) : List String :=
  certBackupWarnings env (kubeletFsAfter env dryRun fs0)

def expectedFs (env : Env) (dryRun : Bool) (fs0 : Fs) : Fs :=
  certBackupFsAfter env (kubeletFsAfter env dryRun fs0)

/-- One run, decomposed: errors, warnings, trace and filesystem of
`performPostUpgradeTasks` are exactly the concatenations of the per-step
contributions, and the returned value is the aggregate of the errors. -/
theorem performPostUpgradeTasks_eq (cfg : MasterConfiguration) (env : Env) (dryRun : Bool)
    (fs0 : Fs) :
    performPostUpgradeTasks cfg env dryRun fs0 =
      ⟨expectedErrs cfg env dryRun fs0, expectedWarnings env dryRun fs0,
        expectedTrace cfg env dryRun fs0, expectedFs env dryRun fs0,
        NewAggregate (expectedErrs cfg env dryRun fs0)⟩ := by
  cases dryRun with
  | false =>
    simp [performPostUpgradeTasks, runStep, kubeletConfigStep_eq, certBackupStep_eq,
      expectedErrs, expectedWarnings, expectedTrace, expectedFs, selfHostingOutcome,
      kubeletFsAfter, List.append_assoc]
  | true =>
    simp [performPostUpgradeTasks, runStep, kubeletConfigStep_eq, certBackupStep_eq,
      expectedErrs, expectedWarnings, expectedTrace, expectedFs, selfHostingOutcome,
      kubeletFsAfter, List.append_assoc]

/-! ### Aggregate lemmas -/

theorem NewAggregate_eq_none_iff (l : List BaseErr) : NewAggregate l = none ↔ l = [] := by
  cases l <;> simp [NewAggregate]

theorem NewAggregate_mentions (l : List BaseErr) (e : BaseErr) (h : NewAggregate l = some e) :
    strContainsInOrder e.msg (l.map BaseErr.msg) := by
  cases l with
  | nil => simp [NewAggregate] at h
  | cons x rest =>
    simp [NewAggregate] at h
    rw [← h]
    exact aggregateDescription_mentions (x :: rest)

/-! ### Concrete inputs used by the witnesses -/

def fsEmpty : Fs := ⟨fun _ => none, fun _ => false⟩

def mcDefault : MasterConfiguration := ⟨false, false⟩

/-- A run environment in which every collaborator call succeeds. -/
def envOk : Env where
  uploadConfiguration := none
  createConfigMap := none
  tempDir := .ok "/tmp/kubeadm-upgrade-dryrun042"
  downloadConfig := none
  annotateCRISocket := none
  allowBootstrapTokensToPostCSRs := none
  autoApproveNodeBootstrapTokens := none
  autoApproveNodeCertificateRotation := none
  isControlPlaneSelfHosted := false
  createSelfHostedControlPlane := fun _ => none
  createClusterInfoRBACRules := none
  parseCerts := fun _ => .ok [⟨0⟩]
  now := 0
  createAPIServerCertAndKeyFiles := none
  ensureDNSAddon := none
  dnsGet := fun _ _ => .ok ⟨1⟩
  dnsDelete := fun _ _ => none
  ensureProxyAddon := none

def envTwoFailures : Env :=
  { envOk with
    uploadConfiguration := some ⟨"upload failed", false⟩,
    ensureProxyAddon := some ⟨"proxy failed", false⟩ }

/-! ### C1 -/

/-- C1: for every run, `PerformPostUpgradeTasks` executes all steps without
aborting early (every unconditional step's action is in the trace) and
returns nil iff no step appended an error; otherwise it returns one
aggregate error whose description mentions every appended failure, in the
order the steps produced them. -/
theorem claim_C1_run_aggregates_failures (cfg : MasterConfiguration) (env : Env)
    (dryRun : Bool) (fs0 : Fs) :
    (performPostUpgradeTasks cfg env dryRun fs0).result =
        NewAggregate (performPostUpgradeTasks cfg env dryRun fs0).errs
    ∧ ((performPostUpgradeTasks cfg env dryRun fs0).result = none ↔
        (performPostUpgradeTasks cfg env dryRun fs0).errs = [])
    ∧ (∀ e, (performPostUpgradeTasks cfg env dryRun fs0).result = some e →
        strContainsInOrder e.msg
          ((performPostUpgradeTasks cfg env dryRun fs0).errs.map BaseErr.msg))
    ∧ (∀ a, a ∈ ([Action.uploadConfiguration, Action.createConfigMap,
          Action.annotateCRISocket, Action.allowBootstrapTokensToPostCSRs,
          Action.autoApproveNodeBootstrapTokens, Action.autoApproveNodeCertificateRotation,
          Action.createClusterInfoRBACRules, Action.ensureDNSAddon,
          Action.ensureProxyAddon] : List Action) →
        a ∈ (performPostUpgradeTasks cfg env dryRun fs0).trace) := by
  have hp := performPostUpgradeTasks_eq cfg env dryRun fs0
  refine ⟨?_, ?_, ?_, ?_⟩
  · rw [hp]
  · rw [hp]
    exact NewAggregate_eq_none_iff _
  · intro e h
    rw [hp] at h ⊢
    exact NewAggregate_mentions _ e h
  · intro a ha
    rw [hp]
    simp only [List.mem_cons, List.not_mem_nil, or_false] at ha
    simp only [expectedTrace, List.mem_append, List.mem_singleton]
    rcases ha with h | h | h | h | h | h | h | h | h <;> subst h <;> tauto

/-- Witness for C1: on a concrete run with two failing steps the returned
aggregate mentions both failure messages in order. -/
theorem claim_C1_witness :
    strContainsInOrder "upload failed, proxy failed" ["upload failed", "proxy failed"] := by
  have h :=
    (claim_C1_run_aggregates_failures mcDefault envTwoFailures false fsEmpty).2.2.1
      ⟨"upload failed, proxy failed", false⟩ (by rfl)
  have he : (performPostUpgradeTasks mcDefault envTwoFailures false fsEmpty).errs.map
      BaseErr.msg = ["upload failed", "proxy failed"] := by rfl
  rw [he] at h
  exact h

/-! ### C4 -/

/-- C4: `shouldBackupAPIServerCertAndKey` errors when the certificate file
is unreadable (missing or unparsable) or holds no certificate data;
otherwise it returns true iff more than 180 days have elapsed between the
first certificate's NotBefore and now, so age 181 days yields true and age
179 days yields false. -/
theorem claim_C4_expiry_gate (parse : String → Except BaseErr (List Cert)) (now : Int)
    (fs : Fs) (dir : String) :
    (fs.files (filepathJoin dir apiServerCertName) = none →
      ∃ e, shouldBackupAPIServerCertAndKey parse now fs dir = .error e)
    ∧ (∀ content e, fs.files (filepathJoin dir apiServerCertName) = some content →
        parse content = .error e →
        ∃ e2, shouldBackupAPIServerCertAndKey parse now fs dir = .error e2)
    ∧ (∀ content, fs.files (filepathJoin dir apiServerCertName) = some content →
        parse content = .ok [] →
        shouldBackupAPIServerCertAndKey parse now fs dir =
          .error ⟨"no certificate data found", false⟩)
    ∧ (∀ content c rest, fs.files (filepathJoin dir apiServerCertName) = some content →
        parse content = .ok (c :: rest) →
        (shouldBackupAPIServerCertAndKey parse now fs dir =
            .ok (decide (now - c.notBefore > expiry))
          ∧ (c.notBefore = now - 181 * dayNs →
              shouldBackupAPIServerCertAndKey parse now fs dir = .ok true)
          ∧ (c.notBefore = now - 179 * dayNs →
              shouldBackupAPIServerCertAndKey parse now fs dir = .ok false))) := by
  refine ⟨?_, ?_, ?_, ?_⟩
  · intro h
    cases hres : shouldBackupAPIServerCertAndKey parse now fs dir with
    | error e => exact ⟨e, rfl⟩
    | ok b => exfalso; simp [shouldBackupAPIServerCertAndKey, h] at hres
  · intro content e h hp
    cases hres : shouldBackupAPIServerCertAndKey parse now fs dir with
    | error e2 => exact ⟨e2, rfl⟩
    | ok b => exfalso; simp [shouldBackupAPIServerCertAndKey, h, hp] at hres
  · intro content h hp
    simp [shouldBackupAPIServerCertAndKey, h, hp]
  · intro content c rest h hp
    have hbase : shouldBackupAPIServerCertAndKey parse now fs dir =
        .ok (decide (now - c.notBefore > expiry)) := by
      simp [shouldBackupAPIServerCertAndKey, h, hp]
    refine ⟨hbase, ?_, ?_⟩
    · intro hnb
      rw [hbase, hnb]
      simp only [Except.ok.injEq, decide_eq_true_eq]
      unfold expiry dayNs hourNs
      omega
    · intro hnb
      rw [hbase, hnb]
      simp only [Except.ok.injEq, decide_eq_false_iff_not, gt_iff_lt, not_lt]
      unfold expiry dayNs hourNs
      omega

def fsWithCert : Fs :=
  ⟨fun p => if p = filepathJoin defaultCertificatesDir apiServerCertName then some "OLDCERT"
      else if p = filepathJoin defaultCertificatesDir apiServerKeyName then some "OLDKEY"
      else none,
    fun _ => false⟩

/-- Witness for C4: a certificate issued 181 days ago must be backed up,
one issued 179 days ago must not. -/
theorem claim_C4_witness :
    shouldBackupAPIServerCertAndKey (fun _ => .ok [⟨200 * dayNs - 181 * dayNs⟩])
        (200 * dayNs) fsWithCert defaultCertificatesDir = .ok true
    ∧ shouldBackupAPIServerCertAndKey (fun _ => .ok [⟨200 * dayNs - 179 * dayNs⟩])
        (200 * dayNs) fsWithCert defaultCertificatesDir = .ok false := by
  constructor
  · exact (((claim_C4_expiry_gate (fun _ => .ok [⟨200 * dayNs - 181 * dayNs⟩])
      (200 * dayNs) fsWithCert defaultCertificatesDir).2.2.2 "OLDCERT"
      ⟨200 * dayNs - 181 * dayNs⟩ [] (by rfl) (by rfl)).2.1 (by rfl))
  · exact (((claim_C4_expiry_gate (fun _ => .ok [⟨200 * dayNs - 179 * dayNs⟩])
      (200 * dayNs) fsWithCert defaultCertificatesDir).2.2.2 "OLDCERT"
      ⟨200 * dayNs - 179 * dayNs⟩ [] (by rfl) (by rfl)).2.2 (by rfl))

/-! ### C5 -/

/-- C5: within one attempt of the DNS swap, the foreground deletion of the
stale deployment is issued only after the installed deployment's status was
fetched successfully with at least one ready replica (fetch failure or zero
ready replicas fails the attempt); a NotFound deletion yields success and
any other deletion failure fails the attempt. -/
theorem claim_C5_dns_swap_ordering (cfg : MasterConfiguration)
    (get : String → Except BaseErr Deployment) (del : String → Option BaseErr) :
    (∀ n, Action.dnsDeleteDeployment n ∈ (removeOldDNSDeploymentAttempt cfg get del).2 →
      n = dnsStaleName cfg
      ∧ (∃ d, get (dnsInstalledName cfg) = .ok d ∧ d.readyReplicas ≠ 0)
      ∧ (removeOldDNSDeploymentAttempt cfg get del).2 =
          [Action.dnsGetDeployment (dnsInstalledName cfg),
           Action.dnsDeleteDeployment (dnsStaleName cfg)])
    ∧ (∀ e, get (dnsInstalledName cfg) = .error e →
        removeOldDNSDeploymentAttempt cfg get del =
          (some e, [Action.dnsGetDeployment (dnsInstalledName cfg)]))
    ∧ (∀ d, get (dnsInstalledName cfg) = .ok d → d.readyReplicas = 0 →
        removeOldDNSDeploymentAttempt cfg get del =
          (some dnsNotReadyErr, [Action.dnsGetDeployment (dnsInstalledName cfg)]))
    ∧ (∀ d e, get (dnsInstalledName cfg) = .ok d → d.readyReplicas ≠ 0 →
        del (dnsStaleName cfg) = some e → e.notFound = true →
        (removeOldDNSDeploymentAttempt cfg get del).1 = none)
    ∧ (∀ d e, get (dnsInstalledName cfg) = .ok d → d.readyReplicas ≠ 0 →
        del (dnsStaleName cfg) = some e → e.notFound = false →
        (removeOldDNSDeploymentAttempt cfg get del).1 = some e)
    ∧ (∀ d, get (dnsInstalledName cfg) = .ok d → d.readyReplicas ≠ 0 →
        del (dnsStaleName cfg) = none →
        (removeOldDNSDeploymentAttempt cfg get del).1 = none) := by
  refine ⟨?_, ?_, ?_, ?_, ?_, ?_⟩
  · intro n hn
    cases hg : get (dnsInstalledName cfg) with
    | error e => simp [removeOldDNSDeploymentAttempt, hg] at hn
    | ok d =>
      by_cases hz : d.readyReplicas = 0
      · simp [removeOldDNSDeploymentAttempt, hg, hz] at hn
      · cases hd : del (dnsStaleName cfg) with
        | none =>
          simp [removeOldDNSDeploymentAttempt, hg, hz, hd] at hn
          exact ⟨hn, ⟨d, rfl, hz⟩, by simp [removeOldDNSDeploymentAttempt, hg, hz, hd]⟩
        | some e =>
          cases hnf : e.notFound with
          | true =>
            simp [removeOldDNSDeploymentAttempt, hg, hz, hd, hnf] at hn
            exact ⟨hn, ⟨d, rfl, hz⟩, by simp [removeOldDNSDeploymentAttempt, hg, hz, hd, hnf]⟩
          | false =>
            simp [removeOldDNSDeploymentAttempt, hg, hz, hd, hnf] at hn
            exact ⟨hn, ⟨d, rfl, hz⟩, by simp [removeOldDNSDeploymentAttempt, hg, hz, hd, hnf]⟩
  · intro e hg
    simp [removeOldDNSDeploymentAttempt, hg]
  · intro d hg hz
    simp [removeOldDNSDeploymentAttempt, hg, hz]
  · intro d e hg hz hd hnf
    simp [removeOldDNSDeploymentAttempt, hg, hz, hd, hnf]
  · intro d e hg hz hd hnf
    simp [removeOldDNSDeploymentAttempt, hg, hz, hd, hnf]
  · intro d hg hz hd
    simp [removeOldDNSDeploymentAttempt, hg, hz, hd]

/-- Witness for C5: with the installed deployment ready and the stale one
already absent (NotFound on delete), the attempt succeeds and the delete is
issued after the get. -/
theorem claim_C5_witness :
    (removeOldDNSDeploymentAttempt mcDefault (fun _ => .ok ⟨2⟩)
        (fun _ => some ⟨"deployments \"coredns\" not found", true⟩)).1 = none
    ∧ (removeOldDNSDeploymentAttempt mcDefault (fun _ => .ok ⟨2⟩)
        (fun _ => some ⟨"deployments \"coredns\" not found", true⟩)).2 =
      [Action.dnsGetDeployment kubeDNS, Action.dnsDeleteDeployment coreDNS] := by
  constructor
  · exact (claim_C5_dns_swap_ordering mcDefault (fun _ => .ok ⟨2⟩)
      (fun _ => some ⟨"deployments \"coredns\" not found", true⟩)).2.2.2.1 ⟨2⟩
      ⟨"deployments \"coredns\" not found", true⟩ rfl (by decide) rfl rfl
  · have h := ((claim_C5_dns_swap_ordering mcDefault (fun _ => .ok ⟨2⟩)
      (fun _ => some ⟨"deployments \"coredns\" not found", true⟩)).1
      coreDNS (by decide)).2.2
    simpa [dnsInstalledName, dnsStaleName, mcDefault] using h

/-! ### C6 -/

/-- C6: the DNS-swap step picks the installed and stale deployment names as
exactly the two constants — CoreDNS installed and KubeDNS stale when the
CoreDNS feature gate is enabled, the reverse otherwise — and the two names
are never equal; the attempt fetches only the installed name and deletes
only the stale name. -/
theorem claim_C6_dns_name_selection (cfg : MasterConfiguration)
    (get : String → Except BaseErr Deployment) (del : String → Option BaseErr) :
    (cfg.coreDNSEnabled = true →
      dnsInstalledName cfg = coreDNS ∧ dnsStaleName cfg = kubeDNS)
    ∧ (cfg.coreDNSEnabled = false →
      dnsInstalledName cfg = kubeDNS ∧ dnsStaleName cfg = coreDNS)
    ∧ dnsInstalledName cfg ≠ dnsStaleName cfg
    ∧ (∀ n, Action.dnsGetDeployment n ∈ (removeOldDNSDeploymentAttempt cfg get del).2 →
        n = dnsInstalledName cfg)
    ∧ (∀ n, Action.dnsDeleteDeployment n ∈ (removeOldDNSDeploymentAttempt cfg get del).2 →
        n = dnsStaleName cfg) := by
  refine ⟨?_, ?_, ?_, ?_, ?_⟩
  · intro h
    simp [dnsInstalledName, dnsStaleName, h]
  · intro h
    simp [dnsInstalledName, dnsStaleName, h]
  · cases h : cfg.coreDNSEnabled <;>
      simp [dnsInstalledName, dnsStaleName, h, coreDNS, kubeDNS]
  · intro n hn
    cases hg : get (dnsInstalledName cfg) with
    | error e => simpa [removeOldDNSDeploymentAttempt, hg] using hn
    | ok d =>
      by_cases hz : d.readyReplicas = 0
      · simpa [removeOldDNSDeploymentAttempt, hg, hz] using hn
      · cases hd : del (dnsStaleName cfg) with
        | none => simpa [removeOldDNSDeploymentAttempt, hg, hz, hd] using hn
        | some e =>
          cases hnf : e.notFound <;>
            simpa [removeOldDNSDeploymentAttempt, hg, hz, hd, hnf] using hn
  · intro n hn
    cases hg : get (dnsInstalledName cfg) with
    | error e => simp [removeOldDNSDeploymentAttempt, hg] at hn
    | ok d =>
      by_cases hz : d.readyReplicas = 0
      · simp [removeOldDNSDeploymentAttempt, hg, hz] at hn
      · cases hd : del (dnsStaleName cfg) with
        | none => simpa [removeOldDNSDeploymentAttempt, hg, hz, hd] using hn
        | some e =>
          cases hnf : e.notFound <;>
            simpa [removeOldDNSDeploymentAttempt, hg, hz, hd, hnf] using hn

/-- Witness for C6: with the CoreDNS gate enabled the installed name is
coredns and the stale name is kube-dns, and they differ. -/
theorem claim_C6_witness :
    dnsInstalledName ⟨true, false⟩ = coreDNS ∧ dnsStaleName ⟨true, false⟩ = kubeDNS
    ∧ dnsInstalledName ⟨true, false⟩ ≠ dnsStaleName ⟨true, false⟩ := by
  have h := claim_C6_dns_name_selection ⟨true, false⟩ (fun _ => .ok ⟨1⟩) (fun _ => none)
  exact ⟨(h.1 rfl).1, (h.1 rfl).2, h.2.2.1⟩

/-! ### C9 -/

/-- C9: `upgradeToSelfHosting` returns nil without invoking the converter
unless the SelfHosting gate is enabled and the control plane is not already
self-hosted; when both hold it invokes the converter exactly once, with the
dry-run waiter for dry runs and the 30-minute kube waiter otherwise; after
a successful conversion a second call invokes the converter at most once in
total. -/
theorem claim_C9_self_hosting_gate (cfg : MasterConfiguration) (selfHosted : Bool)
    (convert : Waiter → Option BaseErr) (dryRun : Bool) :
    ((cfg.selfHostingEnabled = false ∨ selfHosted = true) →
      upgradeToSelfHosting cfg selfHosted convert dryRun = (none, []))
    ∧ (cfg.selfHostingEnabled = true → selfHosted = false →
        convertInvocations (upgradeToSelfHosting cfg selfHosted convert dryRun).2 = 1
        ∧ (upgradeToSelfHosting cfg selfHosted convert dryRun).2 =
            [Action.createSelfHostedControlPlane (getWaiter dryRun)])
    ∧ getWaiter true = Waiter.dryrun
    ∧ getWaiter false = Waiter.kube (30 * minuteNs)
    ∧ ((upgradeToSelfHosting cfg selfHosted convert dryRun).1 = none →
        convertInvocations (upgradeToSelfHosting cfg selfHosted convert dryRun).2
          + convertInvocations (upgradeToSelfHosting cfg
              (selfHostedStateAfter selfHosted (upgradeToSelfHosting cfg selfHosted convert dryRun))
              convert dryRun).2 ≤ 1) := by
  refine ⟨?_, ?_, rfl, rfl, ?_⟩
  · rintro (h | h) <;> simp [upgradeToSelfHosting, h]
  · intro he hs
    cases hc : convert (getWaiter dryRun) with
    | none => simp [upgradeToSelfHosting, he, hs, hc, convertInvocations]
    | some e => simp [upgradeToSelfHosting, he, hs, hc, convertInvocations]
  · intro hok
    by_cases hg : (cfg.selfHostingEnabled && !selfHosted) = true
    · cases hc : convert (getWaiter dryRun) with
      | some e =>
        exfalso
        rw [upgradeToSelfHosting, if_pos hg, hc] at hok
        simp at hok
      | none =>
        have h1 : upgradeToSelfHosting cfg selfHosted convert dryRun =
            (none, [Action.createSelfHostedControlPlane (getWaiter dryRun)]) := by
          rw [upgradeToSelfHosting, if_pos hg, hc]
        rw [h1]
        have h2 : selfHostedStateAfter selfHosted
            (none, [Action.createSelfHostedControlPlane (getWaiter dryRun)]) = true := by
          simp [selfHostedStateAfter]
        rw [h2]
        have h3 : upgradeToSelfHosting cfg true convert dryRun = (none, []) := by
          rw [upgradeToSelfHosting]
          simp
        rw [h3]
        simp [convertInvocations]
    · have h1 : upgradeToSelfHosting cfg selfHosted convert dryRun = (none, []) := by
        rw [upgradeToSelfHosting, if_neg hg]
      rw [h1]
      have h2 : selfHostedStateAfter selfHosted (none, []) = selfHosted := by
        simp [selfHostedStateAfter]
      rw [h2, h1]
      simp [convertInvocations]

/-- Witness for C9: with the gate enabled, a not-yet-self-hosted control
plane and a succeeding converter, two calls in a row invoke the converter
exactly once. -/
theorem claim_C9_witness :
    convertInvocations (upgradeToSelfHosting ⟨false, true⟩ false (fun _ => none) false).2
      + convertInvocations (upgradeToSelfHosting ⟨false, true⟩
          (selfHostedStateAfter false (upgradeToSelfHosting ⟨false, true⟩ false
            (fun _ => none) false))
          (fun _ => none) false).2 ≤ 1 :=
  (claim_C9_self_hosting_gate ⟨false, true⟩ false (fun _ => none) false).2.2.2.2 rfl

/-! ### Trace shape lemmas -/

theorem mem_rollbackRenames_trace (files : List (String × String)) (fs : Fs) (a : Action)
    (ha : a ∈ (rollbackRenames files fs).2.2) : ∃ s t, a = Action.renameFs s t := by
  induction files generalizing fs with
  | nil => simp [rollbackRenames] at ha
  | cons pr rest ih =>
    obtain ⟨src, dst⟩ := pr
    rw [rollbackRenames] at ha
    cases hr : osRename src dst fs with
    | error e =>
      rw [hr] at ha
      simp only [List.mem_cons] at ha
      rcases ha with h | h
      · exact ⟨src, dst, h⟩
      · exact ih _ h
    | ok fs1 =>
      rw [hr] at ha
      simp only [List.mem_cons] at ha
      rcases ha with h | h
      · exact ⟨src, dst, h⟩
      · exact ih _ h

theorem mem_moveFilesGo_trace (files recovered : List (String × String)) (fs : Fs)
    (a : Action) (ha : a ∈ (moveFilesGo files recovered fs).2.2) :
    ∃ s t, a = Action.renameFs s t := by
  induction files generalizing recovered fs with
  | nil => simp [moveFilesGo] at ha
  | cons pr rest ih =>
    obtain ⟨src, dst⟩ := pr
    rw [moveFilesGo] at ha
    cases hr : osRename src dst fs with
    | error e =>
      rw [hr] at ha
      simp only [List.mem_cons] at ha
      rcases ha with h | h
      · exact ⟨src, dst, h⟩
      · exact mem_rollbackRenames_trace recovered fs a h
    | ok fs1 =>
      rw [hr] at ha
      simp only [List.mem_cons] at ha
      rcases ha with h | h
      · exact ⟨src, dst, h⟩
      · exact ih _ _ h

theorem mem_backup_trace (dir : String) (fs : Fs) (a : Action)
    (ha : a ∈ (backupAPIServerCertAndKey dir fs).2.2) :
    (∃ p, a = Action.mkdirFs p) ∨ ∃ s t, a = Action.renameFs s t := by
  rw [backupAPIServerCertAndKey] at ha
  cases hm : osMkdir (filepathJoin dir "expired") fs with
  | error e =>
    rw [hm] at ha
    simp only [List.mem_singleton] at ha
    exact Or.inl ⟨_, ha⟩
  | ok fs1 =>
    rw [hm] at ha
    simp only [List.mem_cons] at ha
    rcases ha with h | h
    · exact Or.inl ⟨_, h⟩
    · exact Or.inr (mem_moveFilesGo_trace _ _ _ a h)

theorem mem_certBackupTrace (env : Env) (fs : Fs) (a : Action)
    (ha : a ∈ certBackupTrace env fs) :
    (∃ p, a = Action.readCertFile p) ∨ (∃ p, a = Action.mkdirFs p)
    ∨ (∃ s t, a = Action.renameFs s t) ∨ a = Action.createAPIServerCertAndKeyFiles := by
  rw [certBackupTrace] at ha
  simp only [List.mem_append, List.mem_singleton] at ha
  rcases ha with h | h
  · exact Or.inl ⟨_, h⟩
  · cases ho : certOutcome env fs with
    | error e => rw [ho] at h; simp at h
    | ok b =>
      cases b with
      | false => rw [ho] at h; simp at h
      | true =>
        rw [ho] at h
        simp only [List.mem_append, List.mem_singleton] at h
        rcases h with h | h
        · rcases mem_backup_trace _ _ _ h with h2 | h2
          · exact Or.inr (Or.inl h2)
          · exact Or.inr (Or.inr (Or.inl h2))
        · exact Or.inr (Or.inr (Or.inr h))

theorem mem_selfHosting_trace (cfg : MasterConfiguration) (selfHosted : Bool)
    (convert : Waiter → Option BaseErr) (dryRun : Bool) (a : Action)
    (ha : a ∈ (upgradeToSelfHosting cfg selfHosted convert dryRun).2) :
    ∃ w, a = Action.createSelfHostedControlPlane w := by
  rw [upgradeToSelfHosting] at ha
  by_cases hg : (cfg.selfHostingEnabled && !selfHosted) = true
  · rw [if_pos hg] at ha
    cases hc : convert (getWaiter dryRun) with
    | some e => rw [hc] at ha; simp at ha; exact ⟨_, ha⟩
    | none => rw [hc] at ha; simp at ha; exact ⟨_, ha⟩
  · rw [if_neg hg] at ha
    simp at ha

theorem mem_dnsAttempt_trace (cfg : MasterConfiguration)
    (get : String → Except BaseErr Deployment) (del : String → Option BaseErr) (a : Action)
    (ha : a ∈ (removeOldDNSDeploymentAttempt cfg get del).2) :
    (∃ n, a = Action.dnsGetDeployment n) ∨ ∃ n, a = Action.dnsDeleteDeployment n := by
  cases hg : get (dnsInstalledName cfg) with
  | error e =>
    simp [removeOldDNSDeploymentAttempt, hg] at ha
    exact Or.inl ⟨_, ha⟩
  | ok d =>
    by_cases hz : d.readyReplicas = 0
    · simp [removeOldDNSDeploymentAttempt, hg, hz] at ha
      exact Or.inl ⟨_, ha⟩
    · cases hd : del (dnsStaleName cfg) with
      | some e =>
        cases hnf : e.notFound with
        | true =>
          simp [removeOldDNSDeploymentAttempt, hg, hz, hd, hnf] at ha
          rcases ha with h | h
          · exact Or.inl ⟨_, h⟩
          · exact Or.inr ⟨_, h⟩
        | false =>
          simp [removeOldDNSDeploymentAttempt, hg, hz, hd, hnf] at ha
          rcases ha with h | h
          · exact Or.inl ⟨_, h⟩
          · exact Or.inr ⟨_, h⟩
      | none =>
        simp [removeOldDNSDeploymentAttempt, hg, hz, hd] at ha
        rcases ha with h | h
        · exact Or.inl ⟨_, h⟩
        · exact Or.inr ⟨_, h⟩

theorem mem_tryRunCommandFrom_trace (op : Nat → Option BaseErr × List Action)
    (P : Action → Prop) (hop : ∀ i a, a ∈ (op i).2 → P a) :
    ∀ i fuel a, a ∈ (tryRunCommandFrom op i fuel).2 → P a := by
  intro i fuel
  induction fuel generalizing i with
  | zero => intro a ha; simp [tryRunCommandFrom] at ha
  | succ n ih =>
    intro a ha
    cases hoi : op i with
    | mk r tr =>
      cases r with
      | none =>
        have heq : tryRunCommandFrom op i (n + 1) = (none, tr) := by
          rw [tryRunCommandFrom, hoi]
        rw [heq] at ha
        exact hop i a (by rw [hoi]; exact ha)
      | some e =>
        by_cases hn : n = 0
        · have heq : tryRunCommandFrom op i (n + 1) = (some e, tr) := by
            rw [tryRunCommandFrom, hoi]
            simp [hn]
          rw [heq] at ha
          exact hop i a (by rw [hoi]; exact ha)
        · have heq : tryRunCommandFrom op i (n + 1) =
              ((tryRunCommandFrom op (i + 1) n).1, tr ++ (tryRunCommandFrom op (i + 1) n).2) := by
            rw [tryRunCommandFrom, hoi]
            simp [hn]
          rw [heq] at ha
          rcases List.mem_append.mp ha with h | h
          · exact hop i a (by rw [hoi]; exact h)
          · exact ih (i + 1) a h

theorem mem_removeOld_trace (cfg : MasterConfiguration) (env : Env) (a : Action)
    (ha : a ∈ (removeOldDNSDeploymentIfAnotherDNSIsUsed cfg env).2) :
    (∃ n, a = Action.dnsGetDeployment n) ∨ ∃ n, a = Action.dnsDeleteDeployment n := by
  exact mem_tryRunCommandFrom_trace _ _
    (fun i b hb => mem_dnsAttempt_trace cfg (env.dnsGet i) (env.dnsDelete i) b hb) 0 10 a ha

theorem mem_kubeletStepTrace (env : Env) (dryRun : Bool) (a : Action)
    (ha : a ∈ kubeletStepTrace env dryRun) :
    a = Action.createTempDir ∨ ∃ d, a = Action.downloadConfig d := by
  rw [kubeletStepTrace] at ha
  simp only [List.mem_append] at ha
  rcases ha with h | h
  · cases dryRun <;> simp at h
    exact Or.inl h
  · cases hk : getKubeletDir env dryRun with
    | error e => rw [hk] at h; simp at h
    | ok d =>
      rw [hk] at h
      simp only [List.mem_singleton] at h
      exact Or.inr ⟨_, h⟩

/-- Every action in a run's trace is either one of the fixed singleton
actions, a kubelet-step action, a converter call, a certificate-section
action, or — only when not dry-running — a DNS get/delete. -/
theorem expectedTrace_mem_cases (cfg : MasterConfiguration) (env : Env) (dryRun : Bool)
    (fs0 : Fs) (a : Action) (ha : a ∈ expectedTrace cfg env dryRun fs0) :
    a = Action.uploadConfiguration ∨ a = Action.createConfigMap
    ∨ a = Action.annotateCRISocket ∨ a = Action.allowBootstrapTokensToPostCSRs
    ∨ a = Action.autoApproveNodeBootstrapTokens
    ∨ a = Action.autoApproveNodeCertificateRotation
    ∨ a = Action.createClusterInfoRBACRules ∨ a = Action.ensureDNSAddon
    ∨ a = Action.ensureProxyAddon
    ∨ a ∈ kubeletStepTrace env dryRun
    ∨ (∃ w, a = Action.createSelfHostedControlPlane w)
    ∨ (∃ p, a = Action.readCertFile p) ∨ (∃ p, a = Action.mkdirFs p)
    ∨ (∃ s t, a = Action.renameFs s t) ∨ a = Action.createAPIServerCertAndKeyFiles
    ∨ (dryRun = false ∧
        ((∃ n, a = Action.dnsGetDeployment n) ∨ ∃ n, a = Action.dnsDeleteDeployment n)) := by
  rw [expectedTrace] at ha
  simp only [List.mem_append, List.mem_singleton, or_assoc] at ha
  rcases ha with h | h | h | h | h | h | h | h | h | h | h | h | h
  · tauto
  · tauto
  · tauto
  · tauto
  · tauto
  · tauto
  · tauto
  · rcases mem_selfHosting_trace _ _ _ _ _ h with ⟨w, hw⟩
    tauto
  · tauto
  · rcases mem_certBackupTrace _ _ _ h with h2 | h2 | h2 | h2
    · tauto
    · tauto
    · rcases h2 with ⟨s, t, hst⟩
      exact Or.inr (Or.inr (Or.inr (Or.inr (Or.inr (Or.inr (Or.inr (Or.inr (Or.inr
        (Or.inr (Or.inr (Or.inr (Or.inr (Or.inl ⟨s, t, hst⟩)))))))))))))
    · tauto
  · tauto
  · cases hdr : dryRun with
    | true => rw [hdr] at h; simp at h
    | false =>
      rw [hdr] at h
      simp only [if_neg Bool.false_ne_true] at h
      rcases mem_removeOld_trace cfg env a h with h2 | h2 <;> tauto
  · tauto

/-- A download action in the run's trace can only come from the kubelet
step. -/
theorem downloadConfig_mem_trace (cfg : MasterConfiguration) (env : Env) (dryRun : Bool)
    (fs0 : Fs) (d : String)
    (h : Action.downloadConfig d ∈ expectedTrace cfg env dryRun fs0) :
    Action.downloadConfig d ∈ kubeletStepTrace env dryRun := by
  rcases expectedTrace_mem_cases cfg env dryRun fs0 _ h with
    h | h | h | h | h | h | h | h | h | h | h | h | h | h | h | h
  all_goals try exact h
  all_goals simp at h

/-! ### C7 -/

/-- C7: a kubelet-directory-resolution failure is appended to the aggregate
(not fatal to the run) and the download is skipped; when the directory
resolves, a download failure is appended unless it is NotFound during a dry
run, in which case the kubelet step appends nothing. -/
theorem claim_C7_kubelet_config_errors (cfg : MasterConfiguration) (env : Env)
    (dryRun : Bool) (fs0 : Fs) :
    (performPostUpgradeTasks cfg env dryRun fs0).errs = expectedErrs cfg env dryRun fs0
    ∧ (∀ e, getKubeletDir env dryRun = .error e →
        e ∈ (performPostUpgradeTasks cfg env dryRun fs0).errs
        ∧ (∀ d, Action.downloadConfig d ∉ (performPostUpgradeTasks cfg env dryRun fs0).trace)
        ∧ Action.ensureProxyAddon ∈ (performPostUpgradeTasks cfg env dryRun fs0).trace)
    ∧ (∀ d e, getKubeletDir env dryRun = .ok d → env.downloadConfig = some e →
        (¬(e.notFound = true ∧ dryRun = true) →
          wrapErr downloadErrPre e ∈ (performPostUpgradeTasks cfg env dryRun fs0).errs)
        ∧ (e.notFound = true → dryRun = true → kubeletStepErrs env dryRun = [])) := by
  have hp := performPostUpgradeTasks_eq cfg env dryRun fs0
  refine ⟨by rw [hp], ?_, ?_⟩
  · intro e he
    rw [hp]
    refine ⟨?_, ?_, ?_⟩
    · simp only [expectedErrs, List.mem_append]
      have hmem : e ∈ kubeletStepErrs env dryRun := by
        simp [kubeletStepErrs, he]
      tauto
    · intro d hmem
      have hk := downloadConfig_mem_trace cfg env dryRun fs0 d hmem
      rw [kubeletStepTrace, he] at hk
      cases dryRun <;> simp at hk
    · simp [expectedTrace]
  · intro d e hd he
    constructor
    · intro hne
      rw [hp]
      simp only [expectedErrs, List.mem_append]
      have hmem : wrapErr downloadErrPre e ∈ kubeletStepErrs env dryRun := by
        have hb : ¬((e.notFound && dryRun) = true) := by
          intro hb
          exact hne (by simpa using hb)
        simp [kubeletStepErrs, hd, he, hb]
      tauto
    · intro h1 h2
      subst h2
      simp [kubeletStepErrs, hd, he, h1]

def envTmpFail : Env :=
  { envOk with tempDir := .error ⟨"stat /tmp: no such file or directory", false⟩ }

/-- Witness for C7: on a dry run whose temporary-directory creation fails,
the failure is in the aggregate and the run still reaches the proxy step. -/
theorem claim_C7_witness :
    (⟨"stat /tmp: no such file or directory", false⟩ : BaseErr) ∈
      (performPostUpgradeTasks mcDefault envTmpFail true fsEmpty).errs
    ∧ Action.ensureProxyAddon ∈
      (performPostUpgradeTasks mcDefault envTmpFail true fsEmpty).trace := by
  have h := (claim_C7_kubelet_config_errors mcDefault envTmpFail true fsEmpty).2.1 _ (by rfl)
  exact ⟨h.1, h.2.2⟩

/-! ### C8 -/

/-- C8: a failure to determine whether to back up the API-server
certificate/key, and a failure of the backup itself, are printed as
warnings and never appended to the error aggregate; neither failure by
itself makes the run return an error. -/
theorem claim_C8_backup_failures_warn_only (cfg : MasterConfiguration) (env : Env)
    (dryRun : Bool) (fs0 : Fs) :
    (∀ e, certOutcome env (kubeletFsAfter env dryRun fs0) = .error e →
      determineWarn e ∈ (performPostUpgradeTasks cfg env dryRun fs0).warnings
      ∧ certBackupErrs env (kubeletFsAfter env dryRun fs0) = [])
    ∧ (∀ e, certOutcome env (kubeletFsAfter env dryRun fs0) = .ok true →
        (backupAPIServerCertAndKey defaultCertificatesDir
            (kubeletFsAfter env dryRun fs0)).1 = some e →
        backupWarn e ∈ (performPostUpgradeTasks cfg env dryRun fs0).warnings
        ∧ certBackupErrs env (kubeletFsAfter env dryRun fs0) =
            optErrList id env.createAPIServerCertAndKeyFiles)
    ∧ (performPostUpgradeTasks cfg env dryRun fs0).errs = expectedErrs cfg env dryRun fs0
    ∧ (env.uploadConfiguration = none → env.createConfigMap = none →
        kubeletStepErrs env dryRun = [] → env.annotateCRISocket = none →
        env.allowBootstrapTokensToPostCSRs = none →
        env.autoApproveNodeBootstrapTokens = none →
        env.autoApproveNodeCertificateRotation = none →
        (selfHostingOutcome cfg env dryRun).1 = none →
        env.createClusterInfoRBACRules = none →
        env.createAPIServerCertAndKeyFiles = none →
        env.ensureDNSAddon = none →
        (dryRun = false → (removeOldDNSDeploymentIfAnotherDNSIsUsed cfg env).1 = none) →
        env.ensureProxyAddon = none →
        (performPostUpgradeTasks cfg env dryRun fs0).result = none) := by
  have hp := performPostUpgradeTasks_eq cfg env dryRun fs0
  refine ⟨?_, ?_, by rw [hp], ?_⟩
  · intro e he
    rw [hp]
    constructor
    · show determineWarn e ∈ expectedWarnings env dryRun fs0
      rw [expectedWarnings, certBackupWarnings, he]
      simp
    · rw [certBackupErrs, he]
  · intro e ho hb
    rw [hp]
    constructor
    · show backupWarn e ∈ expectedWarnings env dryRun fs0
      rw [expectedWarnings, certBackupWarnings, ho, hb]
      simp
    · rw [certBackupErrs, ho]
  · intro h1 h2 h3 h4 h5 h6 h7 h8 h9 h10 h11 h12 h13
    rw [hp]
    show NewAggregate (expectedErrs cfg env dryRun fs0) = none
    rw [NewAggregate_eq_none_iff]
    have hcb : certBackupErrs env (kubeletFsAfter env dryRun fs0) = [] := by
      rw [certBackupErrs]
      cases ho : certOutcome env (kubeletFsAfter env dryRun fs0) with
      | error e => rfl
      | ok b =>
        cases b with
        | false => rfl
        | true => rw [h10]; rfl
    have hdns : (if dryRun then []
        else optErrList id (removeOldDNSDeploymentIfAnotherDNSIsUsed cfg env).1) =
        ([] : List BaseErr) := by
      cases hdr : dryRun with
      | true => rfl
      | false => rw [h12 hdr]; rfl
    rw [expectedErrs, h1, h2, h3, h4, h5, h6, h7, h8, h9, h11, h13, hcb, hdns]
    rfl

def envBackupTrouble : Env :=
  { envOk with parseCerts := fun _ => .error ⟨"no valid certificates", false⟩ }

/-- Witness for C8: with every other step succeeding and the certificate
file unparsable, the determination failure is warned about and the run
still returns nil. -/
theorem claim_C8_witness :
    determineWarn ⟨"couldn't load the certificate file /etc/kubernetes/pki/apiserver.crt: no valid certificates", false⟩
        ∈ (performPostUpgradeTasks mcDefault envBackupTrouble true fsWithCert).warnings
    ∧ (performPostUpgradeTasks mcDefault envBackupTrouble true fsWithCert).result = none := by
  have h := claim_C8_backup_failures_warn_only mcDefault envBackupTrouble true fsWithCert
  constructor
  · exact (h.1 _ (by rfl)).1
  · exact h.2.2.2 rfl rfl (by rfl) rfl rfl rfl rfl (by rfl) rfl rfl rfl
      (fun hf => by exact absurd hf (by simp)) rfl

/-! ### C2 -/

/-- C2 (amended): with dry-run=true the DNS-deployment-swap step is not
attempted at all — no DNS get or delete appears in the run's trace; the
cluster-facing steps still go through the provided client, and the run can
still mutate the modelled filesystem (temporary kubelet directory,
certificate backup), which the counterexample exhibits. -/
theorem claim_C2_dryrun_skips_dns_swap (cfg : MasterConfiguration) (env : Env) (fs0 : Fs) :
    (∀ n, Action.dnsGetDeployment n ∉ (performPostUpgradeTasks cfg env true fs0).trace)
    ∧ (∀ n, Action.dnsDeleteDeployment n ∉ (performPostUpgradeTasks cfg env true fs0).trace) := by
  have hp := performPostUpgradeTasks_eq cfg env true fs0
  constructor
  · intro n hmem
    rw [hp] at hmem
    rcases expectedTrace_mem_cases cfg env true fs0 _ hmem with
      h | h | h | h | h | h | h | h | h | h | h | h | h | h | h | h
    all_goals try simp at h
    · rcases mem_kubeletStepTrace env true _ h with h2 | ⟨d2, h2⟩ <;> simp at h2
  · intro n hmem
    rw [hp] at hmem
    rcases expectedTrace_mem_cases cfg env true fs0 _ hmem with
      h | h | h | h | h | h | h | h | h | h | h | h | h | h | h | h
    all_goals try simp at h
    · rcases mem_kubeletStepTrace env true _ h with h2 | ⟨d2, h2⟩ <;> simp at h2

def envDryRunBackup : Env :=
  { envOk with
    parseCerts := fun _ => .ok [⟨0⟩],
    now := 200 * dayNs }

/-- Counterexample to C2 as stated: a dry run against a filesystem holding
an old API-server certificate still mutates the (real, modelled)
filesystem — the certificate file is moved into the expired sub-directory
even though dry-run is true. -/
theorem claim_C2_counterexample :
    fsWithCert.files (filepathJoin defaultCertificatesDir apiServerCertName) = some "OLDCERT"
    ∧ (performPostUpgradeTasks mcDefault envDryRunBackup true fsWithCert).fs.files
        (filepathJoin defaultCertificatesDir apiServerCertName) = none
    ∧ (performPostUpgradeTasks mcDefault envDryRunBackup true fsWithCert).fs.files
        (filepathJoin (filepathJoin defaultCertificatesDir "expired") apiServerCertName) =
      some "OLDCERT" := by
  refine ⟨rfl, ?_, ?_⟩ <;> rfl

/-- Witness for C2 (amended): in the concrete dry run above, no DNS get or
delete action is in the trace. -/
theorem claim_C2_witness :
    Action.dnsGetDeployment kubeDNS ∉
      (performPostUpgradeTasks mcDefault envDryRunBackup true fsWithCert).trace
    ∧ Action.dnsDeleteDeployment coreDNS ∉
      (performPostUpgradeTasks mcDefault envDryRunBackup true fsWithCert).trace :=
  ⟨(claim_C2_dryrun_skips_dns_swap mcDefault envDryRunBackup fsWithCert).1 kubeDNS,
   (claim_C2_dryrun_skips_dns_swap mcDefault envDryRunBackup fsWithCert).2 coreDNS⟩

/-! ### C10 -/

theorem osRename_dirs (src dst : String) (fs fs1 : Fs) (h : osRename src dst fs = .ok fs1) :
    fs1.dirs = fs.dirs := by
  rw [osRename] at h
  cases hf : fs.files src with
  | none => rw [hf] at h; exact absurd h (by simp)
  | some c =>
    rw [hf] at h
    simp only [Except.ok.injEq] at h
    rw [← h]

theorem rollbackRenames_dirs (files : List (String × String)) (fs : Fs) :
    (rollbackRenames files fs).2.1.dirs = fs.dirs := by
  induction files generalizing fs with
  | nil => rfl
  | cons pr rest ih =>
    obtain ⟨src, dst⟩ := pr
    rw [rollbackRenames]
    cases hr : osRename src dst fs with
    | error e => simpa using ih fs
    | ok fs1 =>
      have hd := osRename_dirs src dst fs fs1 hr
      simpa [hd] using ih fs1

theorem moveFilesGo_dirs (files recovered : List (String × String)) (fs : Fs) :
    (moveFilesGo files recovered fs).2.1.dirs = fs.dirs := by
  induction files generalizing recovered fs with
  | nil => rfl
  | cons pr rest ih =>
    obtain ⟨src, dst⟩ := pr
    rw [moveFilesGo]
    cases hr : osRename src dst fs with
    | error e =>
      simpa [rollbackFiles] using rollbackRenames_dirs recovered fs
    | ok fs1 =>
      have hd := osRename_dirs src dst fs fs1 hr
      simpa [hd] using ih (recovered ++ [(dst, src)]) fs1

theorem backup_fails_when_expired_exists (dir : String) (fs : Fs)
    (h : fs.dirs (filepathJoin dir "expired") = true) :
    (backupAPIServerCertAndKey dir fs).1 ≠ none := by
  simp [backupAPIServerCertAndKey, osMkdir, h]

/-- C10: when the "expired" sub-directory already exists,
`backupAPIServerCertAndKey` returns an error before moving any file — the
filesystem is untouched and the only action is the failing mkdir — so a
second backup attempt against the same directory always fails. -/
theorem claim_C10_backup_not_idempotent (dir : String) (fs : Fs) :
    (fs.dirs (filepathJoin dir "expired") = true →
      (backupAPIServerCertAndKey dir fs).1 ≠ none
      ∧ (backupAPIServerCertAndKey dir fs).2.1 = fs
      ∧ (backupAPIServerCertAndKey dir fs).2.2 = [Action.mkdirFs (filepathJoin dir "expired")])
    ∧ ((backupAPIServerCertAndKey dir fs).1 = none →
        (backupAPIServerCertAndKey dir ((backupAPIServerCertAndKey dir fs).2.1)).1 ≠ none) := by
  constructor
  · intro h
    refine ⟨?_, ?_, ?_⟩ <;> simp [backupAPIServerCertAndKey, osMkdir, h]
  · intro h
    by_cases hd : fs.dirs (filepathJoin dir "expired") = true
    · exfalso
      revert h
      simp [backupAPIServerCertAndKey, osMkdir, hd]
    · have hdf : fs.dirs (filepathJoin dir "expired") = false := by
        cases hdd : fs.dirs (filepathJoin dir "expired") with
        | false => rfl
        | true => exact absurd hdd hd
      have h2 : ((backupAPIServerCertAndKey dir fs).2.1).dirs (filepathJoin dir "expired") =
          true := by
        simp only [backupAPIServerCertAndKey, osMkdir, hdf, Bool.false_eq_true, if_false]
        rw [moveFiles]
        rw [moveFilesGo_dirs]
        simp
      exact backup_fails_when_expired_exists dir _ h2

def fsWithExpiredDir : Fs :=
  ⟨fsWithCert.files, fun p => p = filepathJoin defaultCertificatesDir "expired"⟩

/-- Witness for C10: a backup into a directory whose "expired"
sub-directory exists fails without touching the filesystem, and a backup
that succeeded makes the next one fail. -/
theorem claim_C10_witness :
    (backupAPIServerCertAndKey defaultCertificatesDir fsWithExpiredDir).1 ≠ none
    ∧ (backupAPIServerCertAndKey defaultCertificatesDir fsWithExpiredDir).2.1 = fsWithExpiredDir
    ∧ (backupAPIServerCertAndKey defaultCertificatesDir
        ((backupAPIServerCertAndKey defaultCertificatesDir fsWithCert).2.1)).1 ≠ none := by
  refine ⟨?_, ?_, ?_⟩
  · exact ((claim_C10_backup_not_idempotent defaultCertificatesDir fsWithExpiredDir).1
      (by rfl)).1
  · exact ((claim_C10_backup_not_idempotent defaultCertificatesDir fsWithExpiredDir).1
      (by rfl)).2.1
  · exact (claim_C10_backup_not_idempotent defaultCertificatesDir fsWithCert).2 (by rfl)

/-! ### C3: the transactional file mover

`movedView fs0 done` is the file layout after the moves in `done` have been
applied to `fs0`, assuming the pairwise-disjointness invariants of a
FileMoveSet. -/

def movedView (fs0 : Fs) : List (String × String) → String → Option String
  | [], p => fs0.files p
  | (src, dst) :: rest, p =>
    if p = src then none
    else if p = dst then fs0.files src
    else movedView fs0 rest p

theorem movedView_not_touched (fs0 : Fs) (l : List (String × String)) (p : String)
    (hs : p ∉ l.map Prod.fst) (hd : p ∉ l.map Prod.snd) :
    movedView fs0 l p = fs0.files p := by
  induction l with
  | nil => rfl
  | cons pr rest ih =>
    obtain ⟨f, t⟩ := pr
    simp only [List.map_cons, List.mem_cons] at hs hd
    push_neg at hs hd
    rw [movedView, if_neg hs.1, if_neg hd.1]
    exact ih hs.2 hd.2

theorem movedView_append_single (fs0 : Fs) (l : List (String × String)) (f t p : String)
    (hfs : f ∉ l.map Prod.fst) (hfd : f ∉ l.map Prod.snd)
    (hts : t ∉ l.map Prod.fst) (htd : t ∉ l.map Prod.snd) :
    movedView fs0 (l ++ [(f, t)]) p =
      if p = f then none else if p = t then fs0.files f else movedView fs0 l p := by
  induction l with
  | nil => rfl
  | cons pr rest ih =>
    obtain ⟨f1, t1⟩ := pr
    simp only [List.map_cons, List.mem_cons] at hfs hfd hts htd
    push_neg at hfs hfd hts htd
    rw [List.cons_append, movedView]
    by_cases h1 : p = f1
    · rw [if_pos h1]
      have hpf : ¬p = f := by rw [h1]; exact fun hc => hfs.1 hc.symm
      have hpt : ¬p = t := by rw [h1]; exact fun hc => hts.1 hc.symm
      rw [if_neg hpf, if_neg hpt, movedView, if_pos h1]
    · rw [if_neg h1]
      by_cases h2 : p = t1
      · rw [if_pos h2]
        have hpf : ¬p = f := by rw [h2]; exact fun hc => hfd.1 hc.symm
        have hpt : ¬p = t := by rw [h2]; exact fun hc => htd.1 hc.symm
        rw [if_neg hpf, if_neg hpt, movedView, if_neg h1, if_pos h2]
      · rw [if_neg h2, ih hfs.2 hfd.2 hts.2 htd.2]
        by_cases hpf : p = f
        · rw [if_pos hpf, if_pos hpf]
        · rw [if_neg hpf, if_neg hpf]
          by_cases hpt : p = t
          · rw [if_pos hpt, if_pos hpt]
          · rw [if_neg hpt, if_neg hpt, movedView, if_neg h1, if_neg h2]

theorem movedView_src (fs0 : Fs) (l : List (String × String)) (pr : String × String)
    (hmem : pr ∈ l)
    (hns : (l.map Prod.fst).Nodup)
    (hdisj : ∀ p ∈ l.map Prod.fst, p ∉ l.map Prod.snd) :
    movedView fs0 l pr.1 = none := by
  induction l with
  | nil => simp at hmem
  | cons q rest ih =>
    obtain ⟨f1, t1⟩ := q
    rw [movedView]
    rcases List.mem_cons.mp hmem with h | h
    · rw [h]
      simp
    · have hne1 : ¬pr.1 = f1 := by
        intro hc
        simp only [List.map_cons, List.nodup_cons] at hns
        exact hns.1 (hc ▸ (List.mem_map.mpr ⟨pr, h, rfl⟩))
      have hne2 : ¬pr.1 = t1 := by
        intro hc
        have hmsrc : pr.1 ∈ (((f1, t1) :: rest).map Prod.fst) :=
          List.mem_map.mpr ⟨pr, List.mem_cons.mpr (Or.inr h), rfl⟩
        have := hdisj pr.1 hmsrc
        exact this (by rw [hc]; simp)
      rw [if_neg hne1, if_neg hne2]
      refine ih h ?_ ?_
      · simp only [List.map_cons, List.nodup_cons] at hns
        exact hns.2
      · intro p hp hp2
        have hmem2 : p ∈ (((f1, t1) :: rest).map Prod.fst) := by
          simp only [List.map_cons, List.mem_cons]
          exact Or.inr hp
        exact hdisj p hmem2 (by simp only [List.map_cons, List.mem_cons]; exact Or.inr hp2)

theorem movedView_dst (fs0 : Fs) (l : List (String × String)) (pr : String × String)
    (hmem : pr ∈ l)
    (hnd : (l.map Prod.snd).Nodup)
    (hdisj : ∀ p ∈ l.map Prod.fst, p ∉ l.map Prod.snd) :
    movedView fs0 l pr.2 = fs0.files pr.1 := by
  induction l with
  | nil => simp at hmem
  | cons q rest ih =>
    obtain ⟨f1, t1⟩ := q
    rw [movedView]
    rcases List.mem_cons.mp hmem with h | h
    · rw [h]
      have hne : ¬t1 = f1 := by
        intro hc
        have hmsrc : f1 ∈ (((f1, t1) :: rest).map Prod.fst) := by simp
        exact hdisj f1 hmsrc (by rw [← hc]; simp)
      simp only [h]
      rw [if_neg hne]
      simp
    · have hne2 : ¬pr.2 = t1 := by
        intro hc
        simp only [List.map_cons, List.nodup_cons] at hnd
        exact hnd.1 (hc ▸ (List.mem_map.mpr ⟨pr, h, rfl⟩))
      have hne1 : ¬pr.2 = f1 := by
        intro hc
        have hmsrc : f1 ∈ (((f1, t1) :: rest).map Prod.fst) := by simp
        have hmdst : pr.2 ∈ (((f1, t1) :: rest).map Prod.snd) :=
          List.mem_map.mpr ⟨pr, List.mem_cons.mpr (Or.inr h), rfl⟩
        exact hdisj f1 hmsrc (hc ▸ hmdst)
      rw [if_neg hne1, if_neg hne2]
      refine ih h ?_ ?_
      · simp only [List.map_cons, List.nodup_cons] at hnd
        exact hnd.2
      · intro p hp hp2
        have hmem2 : p ∈ (((f1, t1) :: rest).map Prod.fst) := by
          simp only [List.map_cons, List.mem_cons]
          exact Or.inr hp
        exact hdisj p hmem2 (by simp only [List.map_cons, List.mem_cons]; exact Or.inr hp2)

/-- Undoing the completed moves of `done` (in completion order, each
destination renamed back to its source) restores the original filesystem
and produces no reversal errors, given the FileMoveSet invariants. -/
theorem rollbackRenames_restores (fs0 : Fs) (done : List (String × String)) :
    ∀ (fs : Fs),
    ((done.map Prod.fst).Nodup) →
    ((done.map Prod.snd).Nodup) →
    (∀ p ∈ done.map Prod.fst, p ∉ done.map Prod.snd) →
    (∀ p ∈ done.map Prod.snd, fs0.files p = none) →
    (∀ pr ∈ done, (fs0.files pr.1).isSome = true) →
    (∀ p, fs.files p = movedView fs0 done p) →
    (rollbackRenames (done.map (fun pr => (pr.2, pr.1))) fs).1 = []
    ∧ (∀ p,
        (rollbackRenames (done.map (fun pr => (pr.2, pr.1))) fs).2.1.files p = fs0.files p) := by
  induction done with
  | nil =>
    intro fs _ _ _ _ _ hview
    exact ⟨rfl, fun p => hview p⟩
  | cons q rest ih =>
    intro fs hns hnd hdisj hfresh hpres hview
    obtain ⟨f1, t1⟩ := q
    have hf1s : f1 ∈ ((f1, t1) :: rest).map Prod.fst := by simp
    have ht1d : t1 ∈ ((f1, t1) :: rest).map Prod.snd := by simp
    have hft : ¬(t1 = f1) := fun hc => (hdisj f1 hf1s) (hc ▸ ht1d)
    have hval : fs.files t1 = fs0.files f1 := by
      rw [hview t1, movedView, if_neg hft]
      simp
    obtain ⟨c, hc⟩ : ∃ c, fs0.files f1 = some c := by
      have hp := hpres (f1, t1) (List.mem_cons_self _ _)
      cases hcc : fs0.files f1 with
      | none => rw [hcc] at hp; simp at hp
      | some c => exact ⟨c, rfl⟩
    have hrn : osRename t1 f1 fs = .ok
        ⟨fun p => if p = t1 then none else if p = f1 then some c else fs.files p, fs.dirs⟩ := by
      rw [osRename, hval, hc]
    have hstep : rollbackRenames (((f1, t1) :: rest).map (fun pr => (pr.2, pr.1))) fs =
        ((rollbackRenames (rest.map (fun pr => (pr.2, pr.1)))
            ⟨fun p => if p = t1 then none else if p = f1 then some c else fs.files p,
              fs.dirs⟩).1,
         (rollbackRenames (rest.map (fun pr => (pr.2, pr.1)))
            ⟨fun p => if p = t1 then none else if p = f1 then some c else fs.files p,
              fs.dirs⟩).2.1,
         Action.renameFs t1 f1 ::
           (rollbackRenames (rest.map (fun pr => (pr.2, pr.1)))
              ⟨fun p => if p = t1 then none else if p = f1 then some c else fs.files p,
                fs.dirs⟩).2.2) := by
      rw [show ((f1, t1) :: rest).map (fun pr => (pr.2, pr.1)) =
          (t1, f1) :: rest.map (fun pr => (pr.2, pr.1)) from rfl]
      rw [rollbackRenames, hrn]
    simp only [List.map_cons, List.nodup_cons] at hns hnd
    have hdisj' : ∀ p ∈ rest.map Prod.fst, p ∉ rest.map Prod.snd := by
      intro p hp hp2
      exact hdisj p (by simp only [List.map_cons, List.mem_cons]; exact Or.inr hp)
        (by simp only [List.map_cons, List.mem_cons]; exact Or.inr hp2)
    have hfresh' : ∀ p ∈ rest.map Prod.snd, fs0.files p = none := by
      intro p hp
      exact hfresh p (by simp only [List.map_cons, List.mem_cons]; exact Or.inr hp)
    have hpres' : ∀ pr ∈ rest, (fs0.files pr.1).isSome = true := by
      intro pr hpr
      exact hpres pr (List.mem_cons.mpr (Or.inr hpr))
    have hview1 : ∀ p,
        (⟨fun p => if p = t1 then none else if p = f1 then some c else fs.files p,
          fs.dirs⟩ : Fs).files p = movedView fs0 rest p := by
      intro p
      by_cases hp1 : p = t1
      · subst hp1
        have h1 : p ∉ rest.map Prod.fst := by
          intro hmem
          exact (hdisj p (by simp only [List.map_cons, List.mem_cons]; exact Or.inr hmem)) ht1d
        have h2 : p ∉ rest.map Prod.snd := hnd.1
        show (if p = p then none else if p = f1 then some c else fs.files p) =
          movedView fs0 rest p
        rw [if_pos rfl, movedView_not_touched fs0 rest p h1 h2, hfresh p ht1d]
      · by_cases hp2 : p = f1
        · subst hp2
          have h1 : p ∉ rest.map Prod.fst := hns.1
          have h2 : p ∉ rest.map Prod.snd := by
            intro hmem
            exact (hdisj p hf1s)
              (by simp only [List.map_cons, List.mem_cons]; exact Or.inr hmem)
          show (if p = t1 then none else if p = p then some c else fs.files p) =
            movedView fs0 rest p
          rw [if_neg (fun hcc => hft (id (Eq.symm hcc))), if_pos rfl,
            movedView_not_touched fs0 rest p h1 h2, hc]
        · show (if p = t1 then none else if p = f1 then some c else fs.files p) =
            movedView fs0 rest p
          rw [if_neg hp1, if_neg hp2, hview p, movedView, if_neg hp2, if_neg hp1]
    obtain ⟨hie, hiv⟩ := ih _ hns.2 hnd.2 hdisj' hfresh' hpres' hview1
    rw [hstep]
    exact ⟨hie, hiv⟩

/-- One-step characterization of the move loop: with `done` already moved
and the FileMoveSet invariants over `done ++ todo`, the loop either
finishes every move (no source of `todo` missing) leaving the moved view,
or fails at the first `todo` pair whose source is missing, fully restores
the original filesystem, and returns an error mentioning that rename
failure. -/
theorem moveFilesGo_spec (fs0 : Fs) (todo : List (String × String)) :
    ∀ (done : List (String × String)) (fs : Fs),
    (((done ++ todo).map Prod.fst).Nodup) →
    (((done ++ todo).map Prod.snd).Nodup) →
    (∀ p ∈ (done ++ todo).map Prod.fst, p ∉ (done ++ todo).map Prod.snd) →
    (∀ p ∈ (done ++ todo).map Prod.snd, fs0.files p = none) →
    (∀ pr ∈ done, (fs0.files pr.1).isSome = true) →
    (∀ p, fs.files p = movedView fs0 done p) →
    (todo.find? (fun pr => (fs0.files pr.1).isNone) = none →
        (moveFilesGo todo (done.map (fun pr => (pr.2, pr.1))) fs).1 = none
        ∧ ∀ p, (moveFilesGo todo (done.map (fun pr => (pr.2, pr.1))) fs).2.1.files p =
            movedView fs0 (done ++ todo) p)
    ∧ (∀ prf, todo.find? (fun pr => (fs0.files pr.1).isNone) = some prf →
        ∃ e, (moveFilesGo todo (done.map (fun pr => (pr.2, pr.1))) fs).1 = some e
        ∧ (∀ p, (moveFilesGo todo (done.map (fun pr => (pr.2, pr.1))) fs).2.1.files p =
            fs0.files p)
        ∧ strContainsInOrder e.msg [renameErrMsg prf.1 prf.2]) := by
  induction todo with
  | nil =>
    intro done fs _ _ _ _ _ hview
    refine ⟨fun _ => ⟨rfl, fun p => ?_⟩, fun prf h => by simp at h⟩
    rw [List.append_nil]
    exact hview p
  | cons pr0 rest ih =>
    intro done fs hns hnd hdisj hfresh hpres hview
    obtain ⟨f, t⟩ := pr0
    have hmemf : f ∈ (done ++ (f, t) :: rest).map Prod.fst := by simp
    have hmemt : t ∈ (done ++ (f, t) :: rest).map Prod.snd := by simp
    have hmapf : (done ++ (f, t) :: rest).map Prod.fst =
        done.map Prod.fst ++ f :: rest.map Prod.fst := by simp
    have hmapd : (done ++ (f, t) :: rest).map Prod.snd =
        done.map Prod.snd ++ t :: rest.map Prod.snd := by simp
    have hfs_f : f ∉ done.map Prod.fst := by
      intro hmem
      rw [hmapf] at hns
      rcases List.nodup_append.mp hns with ⟨_, _, hdisj2⟩
      exact hdisj2 hmem (by simp)
    have hfd : f ∉ done.map Prod.snd := by
      intro hmem
      exact hdisj f hmemf (by rw [hmapd]; exact List.mem_append.mpr (Or.inl hmem))
    have hts : t ∉ done.map Prod.fst := by
      intro hmem
      refine hdisj t ?_ hmemt
      rw [hmapf]
      exact List.mem_append.mpr (Or.inl hmem)
    have htd : t ∉ done.map Prod.snd := by
      intro hmem
      rw [hmapd] at hnd
      rcases List.nodup_append.mp hnd with ⟨_, _, hdisj2⟩
      exact hdisj2 hmem (by simp)
    have hval : fs.files f = fs0.files f := by
      rw [hview f, movedView_not_touched fs0 done f hfs_f hfd]
    cases hsrc : fs0.files f with
    | none =>
      have hrn : osRename f t fs = .error ⟨renameErrMsg f t, false⟩ := by
        rw [osRename, hval, hsrc]
      have hstep : moveFilesGo ((f, t) :: rest) (done.map (fun pr => (pr.2, pr.1))) fs =
          (some (rollbackFiles (done.map (fun pr => (pr.2, pr.1)))
              ⟨renameErrMsg f t, false⟩ fs).1,
           (rollbackFiles (done.map (fun pr => (pr.2, pr.1)))
              ⟨renameErrMsg f t, false⟩ fs).2.1,
           Action.renameFs f t ::
             (rollbackFiles (done.map (fun pr => (pr.2, pr.1)))
                ⟨renameErrMsg f t, false⟩ fs).2.2) := by
        rw [moveFilesGo, hrn]
      have hdone_ns : (done.map Prod.fst).Nodup := by
        rw [hmapf] at hns
        exact (List.nodup_append.mp hns).1
      have hdone_nd : (done.map Prod.snd).Nodup := by
        rw [hmapd] at hnd
        exact (List.nodup_append.mp hnd).1
      have hdone_disj : ∀ p ∈ done.map Prod.fst, p ∉ done.map Prod.snd := by
        intro p hp hp2
        refine hdisj p ?_ ?_
        · rw [hmapf]; exact List.mem_append.mpr (Or.inl hp)
        · rw [hmapd]; exact List.mem_append.mpr (Or.inl hp2)
      have hdone_fresh : ∀ p ∈ done.map Prod.snd, fs0.files p = none := by
        intro p hp
        refine hfresh p ?_
        rw [hmapd]; exact List.mem_append.mpr (Or.inl hp)
      obtain ⟨hre, hrv⟩ := rollbackRenames_restores fs0 done fs hdone_ns hdone_nd
        hdone_disj hdone_fresh hpres hview
      have hfind : ((f, t) :: rest).find? (fun pr => (fs0.files pr.1).isNone) =
          some (f, t) := by
        apply List.find?_cons_of_pos
        simp [hsrc]
      constructor
      · intro hnone
        rw [hfind] at hnone
        exact absurd hnone (by simp)
      · intro prf hprf
        rw [hfind] at hprf
        have hpr : prf = (f, t) := by
          simpa using hprf.symm
        subst hpr
        refine ⟨⟨mkRollbackErrMsg (done.map (fun pr => (pr.2, pr.1)))
            [⟨renameErrMsg f t, false⟩], false⟩, ?_, ?_, ?_⟩
        · rw [hstep]
          simp only [rollbackFiles, hre]
        · intro p
          rw [hstep]
          simp only [rollbackFiles]
          exact hrv p
        · refine ⟨"couldn't move these files: map["
            ++ renderPairs (done.map (fun pr => (pr.2, pr.1))) ++ "]. Got errors: ",
            "", ?_, trivial⟩
          rw [String.append_empty]
          rfl
    | some c =>
      have hrn : osRename f t fs = .ok
          ⟨fun p => if p = f then none else if p = t then some c else fs.files p,
            fs.dirs⟩ := by
        rw [osRename, hval, hsrc]
      have hstep : moveFilesGo ((f, t) :: rest) (done.map (fun pr => (pr.2, pr.1))) fs =
          ((moveFilesGo rest (done.map (fun pr => (pr.2, pr.1)) ++ [(t, f)])
             ⟨fun p => if p = f then none else if p = t then some c else fs.files p,
               fs.dirs⟩).1,
           (moveFilesGo rest (done.map (fun pr => (pr.2, pr.1)) ++ [(t, f)])
             ⟨fun p => if p = f then none else if p = t then some c else fs.files p,
               fs.dirs⟩).2.1,
           Action.renameFs f t ::
             (moveFilesGo rest (done.map (fun pr => (pr.2, pr.1)) ++ [(t, f)])
               ⟨fun p => if p = f then none else if p = t then some c else fs.files p,
                 fs.dirs⟩).2.2) := by
        rw [moveFilesGo, hrn]
      have hmapsw : done.map (fun pr => (pr.2, pr.1)) ++ [(t, f)] =
          (done ++ [(f, t)]).map (fun pr => (pr.2, pr.1)) := by
        rw [List.map_append]
        rfl
      have happ : (done ++ [(f, t)]) ++ rest = done ++ (f, t) :: rest := by
        rw [List.append_assoc]
        rfl
      have hview1 : ∀ p,
          (⟨fun p => if p = f then none else if p = t then some c else fs.files p,
            fs.dirs⟩ : Fs).files p = movedView fs0 (done ++ [(f, t)]) p := by
        intro p
        rw [movedView_append_single fs0 done f t p hfs_f hfd hts htd]
        show (if p = f then none else if p = t then some c else fs.files p) =
          if p = f then none else if p = t then fs0.files f else movedView fs0 done p
        by_cases hp1 : p = f
        · rw [if_pos hp1, if_pos hp1]
        · rw [if_neg hp1, if_neg hp1]
          by_cases hp2 : p = t
          · rw [if_pos hp2, if_pos hp2, hsrc]
          · rw [if_neg hp2, if_neg hp2, hview p]
      have hpres' : ∀ pr ∈ done ++ [(f, t)], (fs0.files pr.1).isSome = true := by
        intro pr hpr
        rcases List.mem_append.mp hpr with h | h
        · exact hpres pr h
        · have hpr2 : pr = (f, t) := by simpa using h
          rw [hpr2, hsrc]
          rfl
      have hih := ih (done ++ [(f, t)])
        ⟨fun p => if p = f then none else if p = t then some c else fs.files p, fs.dirs⟩
        (by rw [happ]; exact hns) (by rw [happ]; exact hnd)
        (by rw [happ]; exact hdisj) (by rw [happ]; exact hfresh)
        hpres' hview1
      have hfind : ((f, t) :: rest).find? (fun pr => (fs0.files pr.1).isNone) =
          rest.find? (fun pr => (fs0.files pr.1).isNone) := by
        apply List.find?_cons_of_neg
        simp [hsrc]
      constructor
      · intro hnone
        rw [hfind] at hnone
        obtain ⟨h1, h2⟩ := hih.1 hnone
        rw [hmapsw] at hstep
        constructor
        · rw [hstep]
          exact h1
        · intro p
          rw [hstep]
          rw [show (done ++ (f, t) :: rest) = (done ++ [(f, t)]) ++ rest from happ.symm]
          exact h2 p
      · intro prf hprf
        rw [hfind] at hprf
        obtain ⟨e, h1, h2, h3⟩ := hih.2 prf hprf
        rw [hmapsw] at hstep
        refine ⟨e, ?_, ?_, h3⟩
        · rw [hstep]
          exact h1
        · intro p
          rw [hstep]
          exact h2 p

/-- C3: for every FileMoveSet (disjoint sources/destinations, destinations
not yet present) in which some rename fails, `moveFiles` returns a non-nil
error, every move completed before the failing one is reversed — the
filesystem is pointwise restored, so each source exists again and no
destination remains — and the returned error folds the original rename
failure (and any reversal failures) into its message; when every rename
succeeds it returns nil and every destination holds its source's content. -/
theorem claim_C3_transactional_move (files : List (String × String)) (fs : Fs)
    (h1 : (files.map Prod.fst).Nodup)
    (h2 : (files.map Prod.snd).Nodup)
    (h3 : ∀ p ∈ files.map Prod.fst, p ∉ files.map Prod.snd)
    (h4 : ∀ p ∈ files.map Prod.snd, fs.files p = none) :
    ((∀ pr ∈ files, (fs.files pr.1).isSome = true) →
      (moveFiles files fs).1 = none
      ∧ (∀ pr ∈ files, (moveFiles files fs).2.1.files pr.2 = fs.files pr.1
          ∧ (moveFiles files fs).2.1.files pr.1 = none))
    ∧ (∀ prf, files.find? (fun q => (fs.files q.1).isNone) = some prf →
        ∃ e, (moveFiles files fs).1 = some e
        ∧ (∀ p, (moveFiles files fs).2.1.files p = fs.files p)
        ∧ strContainsInOrder e.msg [renameErrMsg prf.1 prf.2])
    ∧ ((∃ pr ∈ files, fs.files pr.1 = none) → (moveFiles files fs).1 ≠ none) := by
  have hspec := moveFilesGo_spec fs files [] fs
    (by simpa using h1) (by simpa using h2) (by simpa using h3) (by simpa using h4)
    (by intro pr hpr; simp at hpr) (fun p => rfl)
  rw [List.nil_append] at hspec
  simp only [List.map_nil] at hspec
  have hmf : moveFiles files fs = moveFilesGo files [] fs := rfl
  refine ⟨?_, ?_, ?_⟩
  · intro hall
    have hfind : files.find? (fun pr => (fs.files pr.1).isNone) = none := by
      rw [List.find?_eq_none]
      intro pr hpr
      have hs := hall pr hpr
      cases hcc : fs.files pr.1 with
      | none => rw [hcc] at hs; simp at hs
      | some c => simp
    obtain ⟨hres, hv⟩ := hspec.1 hfind
    rw [hmf]
    refine ⟨hres, fun pr hpr => ⟨?_, ?_⟩⟩
    · rw [hv pr.2]
      exact movedView_dst fs files pr hpr h2 h3
    · rw [hv pr.1]
      exact movedView_src fs files pr hpr h1 h3
  · intro prf hprf
    rw [hmf]
    exact hspec.2 prf hprf
  · intro hex
    obtain ⟨pr, hpr, hnone⟩ := hex
    have hfind : (files.find? (fun q => (fs.files q.1).isNone)).isSome = true := by
      rw [List.find?_isSome]
      exact ⟨pr, hpr, by simp [hnone]⟩
    cases hf : files.find? (fun q => (fs.files q.1).isNone) with
    | none => rw [hf] at hfind; simp at hfind
    | some prf =>
      obtain ⟨e, he, _, _⟩ := hspec.2 prf hf
      rw [hmf, he]
      simp

def fsMovePair : Fs :=
  ⟨fun p => if p = "/a/x" then some "X" else if p = "/a/y" then some "Y" else none,
    fun _ => false⟩

def fsOnlyX : Fs :=
  ⟨fun p => if p = "/a/x" then some "X" else none, fun _ => false⟩

/-- Witness for C3: with both sources present both moves land and the
result is nil; with the second source missing, the first completed move is
reversed, the error is non-nil and mentions the failing rename. -/
theorem claim_C3_witness :
    (moveFiles [("/a/x", "/b/x"), ("/a/y", "/b/y")] fsMovePair).1 = none
    ∧ (moveFiles [("/a/x", "/b/x"), ("/a/y", "/b/y")] fsMovePair).2.1.files "/b/x" = some "X"
    ∧ (moveFiles [("/a/x", "/b/x"), ("/a/y", "/b/y")] fsMovePair).2.1.files "/a/x" = none
    ∧ ∃ e, (moveFiles [("/a/x", "/b/x"), ("/a/y", "/b/y")] fsOnlyX).1 = some e
        ∧ (moveFiles [("/a/x", "/b/x"), ("/a/y", "/b/y")] fsOnlyX).2.1.files "/a/x" = some "X"
        ∧ (moveFiles [("/a/x", "/b/x"), ("/a/y", "/b/y")] fsOnlyX).2.1.files "/b/x" = none
        ∧ strContainsInOrder e.msg [renameErrMsg "/a/y" "/b/y"] := by
  have hok := claim_C3_transactional_move [("/a/x", "/b/x"), ("/a/y", "/b/y")] fsMovePair
    (by decide) (by decide) (by decide) (by decide)
  have hfail := claim_C3_transactional_move [("/a/x", "/b/x"), ("/a/y", "/b/y")] fsOnlyX
    (by decide) (by decide) (by decide) (by decide)
  obtain ⟨hres, hmoved⟩ := hok.1 (by decide)
  have hm1 := hmoved ("/a/x", "/b/x") (by decide)
  obtain ⟨e, he, hrest, hmsg⟩ := hfail.2.1 ("/a/y", "/b/y") (by rfl)
  refine ⟨hres, ?_, ?_, e, he, ?_, ?_, hmsg⟩
  · rw [hm1.1]
    rfl
  · exact hm1.2
  · rw [hrest "/a/x"]
    rfl
  · rw [hrest "/b/x"]
    rfl

end PostUpgrade
